import Mathlib

/-!
# Verification development for the vyperdatum transformation-pipeline core

Shallow embedding of the pipeline compiler (`vyperdatum/pipeline.py`), the
compound-CRS state machine (`vyperdatum/vypercrs.py`), the point-transform
orchestrator (`vyperdatum/core.py`) and the raster separation applicator
(`vyperdatum/raster.py`), together with proofs about them.

Python strings are embedded as `List Char`; Python floats as the inductive
`VFloat` over `ℚ` extended with the IEEE special values `inf`, `-inf`, `nan`
(only the operations the code uses are defined).  numpy arrays are embedded
as `List VFloat`; array aliasing, where it matters, is made explicit through
a store of arrays indexed by natural-number references.
-/

namespace Vyper

/-- Python strings are embedded as lists of characters. -/
abbrev Str := List Char

/-- Coerce a Lean string literal to the embedded string type. -/
def str (s : String) : Str := s.toList

/-- Python `str.lower` (ASCII data only in this code base). -/
def lowerStr (s : Str) : Str := s.map Char.toLower

/-- Python `pat in s` substring containment (`'' in s` is `True`). -/
def containsSubstr (pat : Str) : Str → Bool
  | [] => pat.isEmpty
  | c :: cs => pat.isPrefixOf (c :: cs) || containsSubstr pat cs

/-- Fuel-driven worker for `replaceAll`; the fuel is an upper bound on the
length of the string still to scan, consumed one unit per character. -/
def replaceAllAux (pat rep : Str) : Nat → Str → Str
  | _, [] => []
  | 0, s => s
  | fuel + 1, c :: cs =>
    if pat ≠ [] ∧ pat.isPrefixOf (c :: cs) then
      rep ++ replaceAllAux pat rep fuel ((c :: cs).drop pat.length)
    else
      c :: replaceAllAux pat rep fuel cs

/-- Python `s.replace(pat, rep)` for a non-empty pattern: replaces every
non-overlapping occurrence, scanning left to right.  (The code base only
ever calls `replace` with the fixed non-empty pattern `'+inv '`.) -/
def replaceAll (pat rep s : Str) : Str := replaceAllAux pat rep s.length s

/-- Python `sep.join(parts)`. -/
def joinSep (sep : Str) : List Str → Str
  | [] => []
  | [x] => x
  | x :: y :: rest => x ++ sep ++ joinSep sep (y :: rest)

/-! ## `vyperdatum/pipeline.py` -/

/-- The `datum_definition` table of `pipeline.py`: each symbolic datum name
maps to its ordered step list from the pivot (`ellipse` maps to `[]`). -/
def datum_definition : List (Str × List Str) :=
  [ (str "ellipse", []),
    (str "geoid", [str "+proj=vgridshift grids=GEOID"]),
    (str "navd88", [str "+proj=vgridshift grids=GEOID"]),
    (str "tss", [str "+proj=vgridshift grids=GEOID",
                 str "+inv +proj=vgridshift grids=REGION\\tss.gtx"]),
    (str "mllw", [str "+proj=vgridshift grids=GEOID",
                  str "+inv +proj=vgridshift grids=REGION\\tss.gtx",
                  str "+proj=vgridshift grids=REGION\\mllw.gtx"]),
    (str "noaa chart datum", [str "+proj=vgridshift grids=GEOID",
                  str "+inv +proj=vgridshift grids=REGION\\tss.gtx",
                  str "+proj=vgridshift grids=REGION\\mllw.gtx"]),
    (str "mhw", [str "+proj=vgridshift grids=GEOID",
                 str "+inv +proj=vgridshift grids=REGION\\tss.gtx",
                 str "+proj=vgridshift grids=REGION\\mhw.gtx"]),
    (str "noaa chart height", [str "+proj=vgridshift grids=GEOID",
                 str "+inv +proj=vgridshift grids=REGION\\tss.gtx",
                 str "+proj=vgridshift grids=REGION\\mhw.gtx"]),
    (str "usace hudson river datum", [str "+proj=vgridshift grids=GEOID",
                 str "+proj=vgridshift grids=REGION\\HudsonRiverDatum.tif"]),
    (str "mtl", [str "+proj=vgridshift grids=GEOID",
                 str "+inv +proj=vgridshift grids=REGION\\tss.gtx",
                 str "+proj=vgridshift grids=REGION\\mtl.gtx"]),
    (str "dtl", [str "+proj=vgridshift grids=GEOID",
                 str "+inv +proj=vgridshift grids=REGION\\tss.gtx",
                 str "+proj=vgridshift grids=REGION\\dtl.gtx"]) ]

/-- Membership of a (lowercased) name in the `datum_definition` table. -/
def lookupDatum (k : Str) : Option (List Str) :=
  (datum_definition.find? (fun p => p.1 = k)).map (·.2)

/-- Embedding of `compare_datums` in `pipeline.py`: collects every position `n` below the
shorter length at which the two lists agree, then `list.remove`s each
collected value (first occurrence) from both lists.  (Note: the collection
loop does *not* stop at the first disagreement.) -/
def compare_datums (in_datum_def out_datum_def : List Str) :
    List Str × List Str :=
  let num_to_compare := min in_datum_def.length out_datum_def.length
  let remove_these := (List.range num_to_compare).filterMap
    (fun n => if in_datum_def.getD n [] = out_datum_def.getD n []
              then some (in_datum_def.getD n []) else none)
  (remove_these.foldl (fun l r => l.erase r) in_datum_def,
   remove_these.foldl (fun l r => l.erase r) out_datum_def)

/-- Layer inversion in `inverse_datum_def`: a layer containing `'+inv'`
has every `'+inv '` occurrence removed, any other layer is prefixed with
`'+inv '` (from `' '.join(['+inv', layer])`). -/
def invertLayer (layer : Str) : Str :=
  if containsSubstr (str "+inv") layer then
    replaceAll (str "+inv ") [] layer
  else
    joinSep (str " ") [str "+inv", layer]

/-- Embedding of `inverse_datum_def` in `pipeline.py`: iterate the list reversed,
inverting each layer. -/
def inverse_datum_def (datum_def : List Str) : List Str :=
  (datum_def.reverse).map invertLayer

/-- A layer string in the shape the `datum_definition` table uses: either no
`'+inv'` marker at all, or a single leading `'+inv '` followed by a
marker-free remainder. -/
def wellFormedLayer (layer : Str) : Bool :=
  !containsSubstr (str "+inv") layer ||
  ((str "+inv ").isPrefixOf layer &&
   !containsSubstr (str "+inv") (layer.drop (str "+inv ").length))

/-- The step list of the `mllw` datum definition. -/
def mllwSteps : List Str :=
  [str "+proj=vgridshift grids=GEOID",
   str "+inv +proj=vgridshift grids=REGION\\tss.gtx",
   str "+proj=vgridshift grids=REGION\\mllw.gtx"]

/-- The error raised by `pipeline.py` (`ValueError` carrying the unknown
datum name in its message). -/
inductive PipeErr where
  | unsupportedDatum (name : Str)
deriving DecidableEq

/-- Embedding of `get_regional_pipeline` in `pipeline.py`.  Identical (case-insensitive)
datum names yield the null pipeline `none`; then both names are validated
against `datum_definition` (source name checked first); then the reduced,
inverted-input pipeline is assembled and the `REGION` / `GEOID`
placeholders are substituted (in that order). -/
def get_regional_pipeline (from_datum to_datum region_name geoid_name : Str) :
    Except PipeErr (Option Str) :=
  let f := lowerStr from_datum
  let t := lowerStr to_datum
  if f = t then Except.ok none
  else
    match lookupDatum f, lookupDatum t with
    | none, _ => Except.error (PipeErr.unsupportedDatum f)
    | some _, none => Except.error (PipeErr.unsupportedDatum t)
    | some input_datum_def, some output_datum_def =>
      let reduced := compare_datums input_datum_def output_datum_def
      let reversed_input_def := inverse_datum_def reduced.1
      let transformation_def :=
        str "+proj=pipeline" :: (reversed_input_def ++ reduced.2)
      let pipeline := joinSep (str " +step ") transformation_def
      let regional_pipeline := replaceAll (str "REGION") region_name pipeline
      let regional_pipeline := replaceAll (str "GEOID") geoid_name regional_pipeline
      Except.ok (some regional_pipeline)

/-- Modelled from the spec: the length of the longest common prefix of two
step lists ("steps compared positionally from the pivot ... until the first
disagreement").  Used only to compare `compare_datums` against the spec's
description of it. -/
def lcpLen : List Str → List Str → Nat
  | a :: as, b :: bs => if a = b then lcpLen as bs + 1 else 0
  | _, _ => 0

/-- Modelled from the spec: removal of exactly the longest common prefix
from both step lists ("removes exactly the longest common prefix ... and
nothing else"). -/
def compare_and_reduce_spec (a b : List Str) : List Str × List Str :=
  (a.drop (lcpLen a b), b.drop (lcpLen a b))

/-! ## Floats, arrays and an array store

Python floats are embedded as rationals extended with the IEEE special
values; numpy arrays as lists; the handful of numpy operations the code
uses are given their pointwise IEEE semantics on this carrier. -/

/-- Embedded Python float: a rational, an infinity, or `nan`. -/
inductive VFloat where
  | fin (q : ℚ)
  | inf
  | neginf
  | nan
deriving DecidableEq

/-- numpy `isinf` (true only on the two infinities, not on `nan`). -/
def visinf : VFloat → Bool
  | VFloat.inf => true
  | VFloat.neginf => true
  | _ => false

/-- numpy `isnan`. -/
def visnan : VFloat → Bool
  | VFloat.nan => true
  | _ => false

/-- Negation. -/
def vneg : VFloat → VFloat
  | VFloat.fin q => VFloat.fin (-q)
  | VFloat.inf => VFloat.neginf
  | VFloat.neginf => VFloat.inf
  | VFloat.nan => VFloat.nan

/-- Addition with IEEE special-value rules. -/
def vadd : VFloat → VFloat → VFloat
  | VFloat.fin a, VFloat.fin b => VFloat.fin (a + b)
  | VFloat.fin _, VFloat.inf => VFloat.inf
  | VFloat.fin _, VFloat.neginf => VFloat.neginf
  | VFloat.inf, VFloat.fin _ => VFloat.inf
  | VFloat.neginf, VFloat.fin _ => VFloat.neginf
  | VFloat.inf, VFloat.inf => VFloat.inf
  | VFloat.neginf, VFloat.neginf => VFloat.neginf
  | VFloat.inf, VFloat.neginf => VFloat.nan
  | VFloat.neginf, VFloat.inf => VFloat.nan
  | _, _ => VFloat.nan

/-- Subtraction (`a - b = a + (-b)`, which matches IEEE on all cases used). -/
def vsub (a b : VFloat) : VFloat := vadd a (vneg b)

/-- Multiplication with IEEE special-value rules. -/
def vmul : VFloat → VFloat → VFloat
  | VFloat.fin a, VFloat.fin b => VFloat.fin (a * b)
  | VFloat.fin a, VFloat.inf =>
    if a > 0 then VFloat.inf else if a < 0 then VFloat.neginf else VFloat.nan
  | VFloat.fin a, VFloat.neginf =>
    if a > 0 then VFloat.neginf else if a < 0 then VFloat.inf else VFloat.nan
  | VFloat.inf, VFloat.fin b =>
    if b > 0 then VFloat.inf else if b < 0 then VFloat.neginf else VFloat.nan
  | VFloat.neginf, VFloat.fin b =>
    if b > 0 then VFloat.neginf else if b < 0 then VFloat.inf else VFloat.nan
  | VFloat.inf, VFloat.inf => VFloat.inf
  | VFloat.inf, VFloat.neginf => VFloat.neginf
  | VFloat.neginf, VFloat.inf => VFloat.neginf
  | VFloat.neginf, VFloat.neginf => VFloat.inf
  | _, _ => VFloat.nan

/-- Strict comparison; any comparison involving `nan` is false. -/
def vgt : VFloat → VFloat → Bool
  | VFloat.fin a, VFloat.fin b => a > b
  | VFloat.inf, VFloat.fin _ => true
  | VFloat.inf, VFloat.neginf => true
  | VFloat.fin _, VFloat.neginf => true
  | _, _ => false

/-- Round-half-to-even on the rationals (numpy's rounding mode). -/
def roundHalfEven (q : ℚ) : ℤ :=
  let f := ⌊q⌋
  let r := q - f
  if r < 1/2 then f
  else if r > 1/2 then f + 1
  else if 2 ∣ f then f else f + 1

/-- numpy `round(x, 3)` on the embedded floats. -/
def round3 : VFloat → VFloat
  | VFloat.fin q => VFloat.fin ((roundHalfEven (q * 1000) : ℚ) / 1000)
  | v => v

/-- Wrap an integer into the signed 8-bit range (numpy `int8` cast). -/
def wrap8 (z : ℤ) : ℤ := ((z + 128) % 256) - 128

/-- numpy boolean-mask assignment `ans[mask] = new[mask]`, pointwise:
positions where the mask is true take the new value, others keep the old
one (on a length mismatch, which numpy rejects, trailing elements are
kept). -/
def maskedAssign : List VFloat → List VFloat → List Bool → List VFloat
  | [], _, _ => []
  | a :: as1, n :: ns, m :: ms =>
    (if m then n else a) :: maskedAssign as1 ns ms
  | a :: as1, _, _ => a :: as1

/-- numpy boolean-mask scalar assignment `ans[mask] = v`. -/
def maskedFill : List VFloat → VFloat → List Bool → List VFloat
  | [], _, _ => []
  | a :: as1, v, m :: ms => (if m then v else a) :: maskedFill as1 v ms
  | a :: as1, _, [] => a :: as1

/-- A store of arrays: array identity is a natural-number reference, so
aliasing and in-place mutation are explicit. -/
abbrev Store := List (List VFloat)

/-- Read the array at a reference (missing references read as empty). -/
def readA (st : Store) (r : Nat) : List VFloat := st.getD r []

/-- Overwrite the array at a reference in place. -/
def writeA (st : Store) (r : Nat) (v : List VFloat) : Store := st.set r v

/-- Allocate a fresh array, returning the new store and its reference. -/
def allocA (st : Store) (v : List VFloat) : Store × Nat := (st ++ [v], st.length)

/-- Store-evolution invariant: the store is at least `n` long and reads
below `n` agree with the starting store `st0`. -/
def Pres (n : Nat) (st0 st : Store) : Prop :=
  n ≤ st.length ∧ ∀ q, q < n → readA st q = readA st0 q

/-! ## `VyperCore.transform_dataset` (`vyperdatum/core.py`, lines 348-456)

The external geodesy engine (`pyproj`) is out of scope: its per-region calls
(`_transform_to_geoid_frame`, `_run_pipeline`) return fresh arrays and are
modelled as oracle functions supplied in a context record, as are the CRS
attributes the method reads (`is_valid`, `is_height`, horizontal names).
Logging and the CRS region-list bookkeeping after the loop
(`update_regions`) touch no arrays and are omitted. -/

/-- Per-region external data for one iteration of the region loop: the
region's name, geoid frame and name, the compiled pipeline
(`get_transformation_pipeline` result, `none` meaning a no-op pair) with
its feasibility flag, the two geodesy-engine calls as oracles, and the
region's scalar output uncertainty (`_get_output_uncertainty`). -/
structure RegionCtx where
  name : String
  gframe : String
  geoid_name : String
  pipeline : Option String
  valid_pipeline : Bool
  toGeoidFrame : List VFloat → List VFloat → List VFloat →
    List VFloat × List VFloat × List VFloat
  runPipeline : List VFloat → List VFloat → List VFloat →
    List VFloat × List VFloat × List VFloat
  unc : VFloat

/-- Call-level context for `transform_dataset`: input/output CRS attributes,
the output-frame reprojection oracle, and the resolved region list. -/
structure TransformCtx where
  in_horiz_name : String
  out_horiz_name : String
  in_is_height : Bool
  out_is_height : Bool
  out_vyperdatum_str : String
  in_valid : Bool
  out_valid : Bool
  toOutFrame : List VFloat → List VFloat → List VFloat →
    List VFloat × List VFloat × List VFloat
  regions : List RegionCtx

/-- Embedding of lines 439-447 of `core.py`: the per-region write-back into
the accumulating output arrays.  `valid_index = ~np.isinf(new_z)` masks the
writes; `ans_z` receives `flip * new_z`, the uncertainty array (when
requested) the region's scalar uncertainty, and the region-index array
(when requested) the `int8`-cast loop counter. -/
def region_write (flip : VFloat) (cnt : Nat) (uncval : VFloat)
    (new_x new_y new_z : List VFloat)
    (ans_x ans_y ans_z : List VFloat)
    (ans_unc ans_region : Option (List VFloat)) :
    List VFloat × List VFloat × List VFloat ×
      Option (List VFloat) × Option (List VFloat) :=
  let valid_index := new_z.map (fun v => !(visinf v))
  (maskedAssign ans_x new_x valid_index,
   maskedAssign ans_y new_y valid_index,
   maskedAssign ans_z (new_z.map (fun v => vmul flip v)) valid_index,
   ans_unc.map (fun u => maskedFill u uncval valid_index),
   ans_region.map (fun rg => maskedFill rg (VFloat.fin (wrap8 cnt)) valid_index))

/-- The store mutations of lines 441-447: overwrite the five accumulator
arrays (uncertainty and region index only when they exist) with the
`region_write` results. -/
def write_back (st : Store) (ansx ansy ansz : Nat) (ansu ansr : Option Nat)
    (w : List VFloat × List VFloat × List VFloat ×
      Option (List VFloat) × Option (List VFloat)) : Store :=
  let st := writeA st ansx w.1
  let st := writeA st ansy w.2.1
  let st := writeA st ansz w.2.2.1
  let st :=
    match ansu, w.2.2.2.1 with
    | some r, some v => writeA st r v
    | _, _ => st
  match ansr, w.2.2.2.2 with
  | some r, some v => writeA st r v
  | _, _ => st

/-- One iteration of the region loop of `transform_dataset` (lines 412-447):
optional reprojection into the geoid frame, the vertical pipeline run (with
`continue` on an infeasible pipeline), the output-horizontal-frame fixups
including the ellipse special case `new_z = new_z - (z - diffz)`, and the
masked write-back `region_write`. -/
def transform_region_step (ctx : TransformCtx) (flip : VFloat)
    (ansx ansy ansz : Nat) (ansu ansr : Option Nat) (xr yr zr : Nat)
    (acc : Store × List String) (cntreg : Nat × RegionCtx) :
    Store × List String :=
  let st := acc.1
  let valid_regions := acc.2
  let cnt := cntreg.1
  let region := cntreg.2
  let xv := readA st xr
  let yv := readA st yr
  let zv := readA st zr
  let step1 :=
    if ctx.in_horiz_name ≠ region.gframe then region.toGeoidFrame xv yv zv
    else (xv, yv, zv)
  if !region.valid_pipeline then (st, valid_regions)
  else
    let step2 :=
      match region.pipeline with
      | some _ =>
        (region.runPipeline step1.1 step1.2.1 step1.2.2,
         valid_regions ++ [region.name])
      | none => (step1, valid_regions)
    let valid_regions := step2.2
    let step3 :=
      if ctx.out_horiz_name = ctx.in_horiz_name then (xv, yv, step2.1.2.2)
      else if ctx.out_horiz_name = region.gframe then step2.1
      else if ctx.out_vyperdatum_str ≠ "ellipse" then
        let o := ctx.toOutFrame xv yv zv
        (o.1, o.2.1, step2.1.2.2)
      else
        let o := ctx.toOutFrame xv yv zv
        (o.1, o.2.1,
         List.zipWith vsub step2.1.2.2 (List.zipWith vsub zv o.2.2))
    let w := region_write flip cnt region.unc step3.1 step3.2.1 step3.2.2
      (readA st ansx) (readA st ansy) (readA st ansz)
      (ansu.map (readA st)) (ansr.map (readA st))
    (write_back st ansx ansy ansz ansu ansr w, valid_regions)

/-- The local variables the region loop of `transform_dataset` works over:
the store after the setup of lines 388-408 and the references of the local
`z` and of the five accumulator arrays. -/
structure SetupResult where
  st : Store
  zr : Nat
  ansx : Nat
  ansy : Nat
  ansz : Nat
  ansu : Option Nat
  ansr : Option Nat

/-- The setup section of `transform_dataset` (lines 388-408): the
depth-to-height negation `z = z.copy(); z *= -1` (a fresh allocation
followed by an in-place mutation of that fresh array), the substituted
zero `z`, and the NaN-filled (resp. `-1`-filled) accumulator allocations.
The uncertainty and region-index accumulators exist only when requested. -/
def transform_setup (ctx : TransformCtx) (st0 : Store) (xr yr : Nat)
    (zopt : Option Nat)
    (include_vdatum_uncertainty include_region_index : Bool) : SetupResult :=
  let stz :=
    match zopt with
    | some zrf =>
      if !ctx.in_is_height then
        let a := allocA st0 (readA st0 zrf)
        (writeA a.1 a.2 ((readA a.1 a.2).map vneg), some a.2)
      else (st0, some zrf)
    | none => (st0, (none : Option Nat))
  let xlen := (readA stz.1 xr).length
  let a1 := allocA stz.1 (List.replicate xlen VFloat.nan)
  let ansx := a1.2
  let a2 := allocA a1.1 (List.replicate (readA a1.1 yr).length VFloat.nan)
  let ansy := a2.2
  let stzr :=
    match stz.2 with
    | some zrf => (a2.1, zrf)
    | none =>
      let az := allocA a2.1 (List.replicate xlen (VFloat.fin 0))
      (az.1, az.2)
  let zr := stzr.2
  let a3 := allocA stzr.1 (List.replicate (readA stzr.1 zr).length VFloat.nan)
  let ansz := a3.2
  let stu :=
    if include_vdatum_uncertainty then
      let au := allocA a3.1 (List.replicate (readA a3.1 zr).length VFloat.nan)
      (au.1, some au.2)
    else (a3.1, (none : Option Nat))
  let ansu := stu.2
  let str2 :=
    if include_region_index then
      let ar := allocA stu.1
        (List.replicate (readA stu.1 zr).length (VFloat.fin (-1)))
      (ar.1, some ar.2)
    else (stu.1, (none : Option Nat))
  { st := str2.1, zr := zr, ansx := ansx, ansy := ansy, ansz := ansz,
    ansu := ansu, ansr := str2.2 }

/-- Embedding of `VyperCore.transform_dataset`.  Inputs are references into
the store (the caller's arrays); the optional `z` mirrors the `z=None`
default.  Returns the final store and, unless the call raised
(`no regions`, invalid CRS, or no valid region at all), the returned
quintuple of arrays read out of the store, with `ans_z` rounded to three
decimals. -/
def transform_dataset (ctx : TransformCtx) (st0 : Store) (xr yr : Nat)
    (zopt : Option Nat)
    (include_vdatum_uncertainty include_region_index : Bool) :
    Store × Option (List VFloat × List VFloat × List VFloat ×
      Option (List VFloat) × Option (List VFloat)) :=
  if ctx.regions.isEmpty then (st0, none)
  else if !ctx.in_valid then (st0, none)
  else if !ctx.out_valid then (st0, none)
  else
    let flip := if ctx.out_is_height then VFloat.fin 1 else VFloat.fin (-1)
    let su := transform_setup ctx st0 xr yr zopt
      include_vdatum_uncertainty include_region_index
    let res := (ctx.regions.enum).foldl
      (transform_region_step ctx flip su.ansx su.ansy su.ansz su.ansu su.ansr
        xr yr su.zr)
      (su.st, [])
    let stf := res.1
    if res.2.isEmpty then (stf, none)
    else
      (stf, some (readA stf su.ansx, readA stf su.ansy,
        (readA stf su.ansz).map round3,
        su.ansu.map (readA stf), su.ansr.map (readA stf)))

/-! ## `VyperPipelineCRS` (`vyperdatum/vypercrs.py`)

The `pyproj` CRS objects the class stores are external; a vertical CRS is
embedded as its name, its raw remarks text, the region/pipeline lists the
repo's WKT remark parser would extract from that text, and its axis
direction.  WKT (de)serialisation through `pyproj` is abstracted away: a
compound CRS is the data it was built from, and its external `to_wkt`
rendering is a parameter where needed. -/

/-- Abstraction of a `pyproj` vertical CRS as the class reads it: `name`,
`remarks` (raw text, `none` when absent), the regions and pipelines that
`VerticalPipelineCRS.from_wkt` would extract from the remarks, and the
vertical axis direction (`"up"` / `"down"`). -/
structure VertCRS where
  name : String
  remarks : Option String
  regions_in_remarks : List String
  pipelines_in_remarks : List String
  axis_dir : String
deriving DecidableEq

/-- Abstraction of a `pyproj` `CompoundCRS` as the data it was built from. -/
structure CCRS where
  cname : String
  hori : String
  vert : VertCRS
deriving DecidableEq

/-- The mutable state of a `VyperPipelineCRS` object (field names as in the
source; the horizontal CRS is abstracted to its name). -/
structure VPCState where
  is_valid_f : Bool
  ccrs : Option CCRS
  vert_f : Option VertCRS
  hori_f : Option String
  regions_f : List String
  vyperdatum_str_f : Option String
  pipeline_str_f : Option String
  is_height_f : Option Bool
deriving DecidableEq

/-- The state `__init__` produces (before any optional `set_crs`). -/
def VPCState.init : VPCState :=
  { is_valid_f := false, ccrs := none, vert_f := none, hori_f := none,
    regions_f := [], vyperdatum_str_f := none, pipeline_str_f := none,
    is_height_f := none }

/-- External data `build_valid_vert_crs` consults: the vdatum and vyperdatum
version strings and the per-region geoid name / geoid frame lookups of
`DatumData`. -/
structure DatumCtx where
  vdatum_version : String
  vyper_version : String
  geoidName : String → String
  geoidFrame : String → String

/-- Embedding of `guess_vertical_datum_from_string`: collect every
`datum_definition` key occurring in the lowercased name; one match returns
it, zero matches return the empty string, several raise `ValueError`. -/
def guess_vertical_datum_from_string (vertical_datum_name : String) :
    Except Unit String :=
  let guess_list := datum_definition.filterMap (fun p =>
    if containsSubstr p.1 (lowerStr (str vertical_datum_name))
    then some p.1.asString else none)
  match guess_list with
  | [g] => Except.ok g
  | [] => Except.ok ""
  | _ => Except.error ()

/-- The `pipeline_string` property of `VerticalPipelineCRS`:
`"[p1;p2;...]"`. -/
def pipeline_string_of (ps : List String) : String :=
  "[" ++ String.intercalate ";" ps ++ "]"

/-- The `regions_string` property: `"[r1,r2,...]"`. -/
def regions_string_of (rs : List String) : String :=
  "[" ++ String.intercalate "," rs ++ "]"

/-- The `base_datum` property: the geoid frames of the regions, or a lone
`"["` when there are no regions. -/
def base_datum_of (dd : DatumCtx) (rs : List String) : String :=
  if rs.isEmpty then "["
  else "[" ++ String.intercalate "," (rs.map dd.geoidFrame) ++ "]"

/-- The `build_remarks` rendering (non-pretty form): note it always contains
the four provenance markers `vdatum=`, `vyperdatum=`, `base_datum=`,
`regions=`, `pipelines=`. -/
def build_remarks (dd : DatumCtx) (rs ps : List String) : String :=
  "vdatum=" ++ dd.vdatum_version ++ ",vyperdatum=" ++ dd.vyper_version ++
  ",base_datum=" ++ base_datum_of dd rs ++ ",regions=" ++
  regions_string_of rs ++ ",pipelines=" ++ pipeline_string_of ps

/-- The fixed `geoid_possibilities` list of `vypercrs.py`. -/
def geoid_possibilities : List String :=
  ["geoid12b", "xgeoid16b", "xgeoid17b", "xgeoid18b", "xgeoid19b", "xgeoid20b"]

/-- Embedding of `build_valid_vert_crs`: guesses the datum from the CRS
name; on a guess, folds `add_pipeline` (deduplicating on region) over the
supplied regions starting from the regions/pipelines already embedded in
the CRS remarks, applies the geoid-rename check, and returns the rebuilt
vertical CRS (whose remarks carry all four provenance markers exactly when
the pipeline list is non-empty); an empty guess returns no CRS at all.
Raises (`Except.error`) on an ambiguous guess or a failed geoid check. -/
def build_valid_vert_crs (dd : DatumCtx) (crs : VertCRS)
    (regions : List String) :
    Except Unit (Option VertCRS × String × Option String) :=
  match guess_vertical_datum_from_string crs.name with
  | Except.error _ => Except.error ()
  | Except.ok datum =>
    if datum ≠ "" then
      let rp := regions.foldl
        (fun (acc : List String × List String) region =>
          let new_pipeline : String :=
            if datum = "ellipse" then "[]"
            else
              match get_regional_pipeline (str "ellipse") (str datum)
                  (str region) (str (dd.geoidName region)) with
              | Except.ok (some p) => p.asString
              | _ => ""
          if new_pipeline ≠ "" ∧ region ∉ acc.1 then
            (acc.1 ++ [region], acc.2 ++ [new_pipeline])
          else acc)
        (crs.regions_in_remarks, crs.pipelines_in_remarks)
      let pipeline := pipeline_string_of rp.2
      let remarks : Option String :=
        if rp.2 ≠ [] then some (build_remarks dd rp.1 rp.2) else none
      if datum = "geoid" then
        match geoid_possibilities.filter
            (fun g => containsSubstr (str g) (str pipeline)) with
        | [g] =>
          let nc : VertCRS :=
            { name := g, remarks := remarks, regions_in_remarks := rp.1,
              pipelines_in_remarks := rp.2, axis_dir := crs.axis_dir }
          Except.ok (some nc, datum, some pipeline)
        | _ => Except.error ()
      else
        let nc : VertCRS :=
          { name := crs.name, remarks := remarks, regions_in_remarks := rp.1,
            pipelines_in_remarks := rp.2, axis_dir := crs.axis_dir }
        Except.ok (some nc, datum, some pipeline)
    else
      Except.ok (none, datum, none)

/-- Embedding of `VyperPipelineCRS._valid_vert`: a vertical CRS with
non-empty remarks containing the four markers `regions`, `pipeline`,
`vyperdatum`, `base_datum`. -/
def valid_vert (vert : Option VertCRS) : Bool :=
  match vert with
  | some v =>
    match v.remarks with
    | some r =>
      r ≠ "" && containsSubstr (str "regions") (str r) &&
      containsSubstr (str "pipeline") (str r) &&
      containsSubstr (str "vyperdatum") (str r) &&
      containsSubstr (str "base_datum") (str r)
    | none => false
  | none => false

/-- The first statement of `VyperPipelineCRS._update_and_build_compound`
(rebuild the vertical CRS when both a vertical CRS and a region list are
present); the boolean reports a raised exception. -/
def uabc_build (dd : DatumCtx) (s : VPCState) : VPCState × Bool :=
  match s.vert_f, s.regions_f with
  | some v, r :: rs =>
    match build_valid_vert_crs dd v (r :: rs) with
    | Except.error _ => (s, true)
    | Except.ok (v', dstr, pstr) =>
      let s' :=
        { s with vert_f := v', vyperdatum_str_f := some dstr,
                 pipeline_str_f := pstr }
      (s', false)
  | _, _ => (s, false)

/-- The second statement of `_update_and_build_compound`: when horizontal,
vertical and the remark check all hold, build the compound, set the valid
flag and derive the height flag from the axis direction (`_is_valid` is
assigned before the direction check can raise). -/
def uabc_check (s : VPCState) : VPCState × Bool :=
  match s.hori_f, s.vert_f with
  | some h, some v =>
    if valid_vert (some v) then
      let s2 := { s with
        ccrs := some { cname := h ++ " + " ++ v.name, hori := h, vert := v },
        is_valid_f := true }
      if v.axis_dir = "up" then ({ s2 with is_height_f := some true }, false)
      else if v.axis_dir = "down" then
        ({ s2 with is_height_f := some false }, false)
      else (s2, true)
    else (s, false)
  | _, _ => (s, false)

/-- Embedding of `VyperPipelineCRS._update_and_build_compound`: the rebuild
followed by the validity check.  Partial mutations before a raise
persist. -/
def update_and_build_compound (dd : DatumCtx) (s : VPCState) :
    VPCState × Bool :=
  let built := uabc_build dd s
  if built.2 then built
  else uabc_check built.1

/-- The inputs `set_crs` accepts, one constructor per recognised shape of a
single entry (EPSG code / WKT string after `pyproj` parsing, datum-name
strings resolved against `datum_definition`).  Geocentric and unknown 3D
inputs, which always raise before mutating anything, are omitted. -/
inductive CRSEntry where
  | horizEntry (name : String)
  | vertDatumEntry (dname : String)
  | vertWktEntry (v : VertCRS)
  | compoundEntry (h : String) (v : VertCRS)
  | threeDEntry (frame2d : String)
deriving DecidableEq

/-- The keys of `datum_definition` as Lean strings. -/
def datumKeysS : List String := datum_definition.map (fun p => p.1.asString)

/-- The region-extraction step at the end of `_set_single` when a new
vertical CRS was set: regions parsed from the remarks, when any, replace
the object's region list. -/
def new_vert_extract (s : VPCState) (v : VertCRS) : VPCState :=
  if v.regions_in_remarks ≠ [] then { s with regions_f := v.regions_in_remarks }
  else s

/-- Embedding of `VyperPipelineCRS._set_single`. -/
def set_single (s : VPCState) (e : CRSEntry) : VPCState :=
  match e with
  | CRSEntry.compoundEntry h v =>
    let c : CCRS := { cname := h ++ " + " ++ v.name, hori := h, vert := v }
    let s :=
      { s with ccrs := some c, hori_f := some h, vert_f := some v }
    new_vert_extract s v
  | CRSEntry.threeDEntry frame2d =>
    let v : VertCRS :=
      { name := frame2d ++ "_ellipse", remarks := none,
        regions_in_remarks := [], pipelines_in_remarks := [],
        axis_dir := "up" }
    let s := { s with hori_f := some frame2d, vert_f := some v }
    new_vert_extract s v
  | CRSEntry.vertWktEntry v =>
    let s := { s with vert_f := some v }
    new_vert_extract s v
  | CRSEntry.vertDatumEntry dname =>
    if (lowerStr (str dname)).asString ∈ datumKeysS then
      let nm :=
        if dname = "ellipse" ∧ s.hori_f.isSome then
          s.hori_f.getD "" ++ "_ellipse"
        else dname
      let v : VertCRS :=
        { name := nm, remarks := none, regions_in_remarks := [],
          pipelines_in_remarks := [], axis_dir := "up" }
      let s := { s with vert_f := some v }
      new_vert_extract s v
    else s
  | CRSEntry.horizEntry h => { s with hori_f := some h }

/-- The mutations of the state machine: `set_crs` (up to two entries plus an
optional region list, an empty list meaning the argument was omitted) and
`update_regions`. -/
inductive VPCOp where
  | setCrs (entries : List CRSEntry) (regions : List String)
  | updateRegions (regions : List String)

/-- One operation on a `VyperPipelineCRS`; the boolean reports a raised
exception (the state keeps any mutations applied before the raise). -/
def vpc_step (dd : DatumCtx) (s : VPCState) (op : VPCOp) : VPCState × Bool :=
  match op with
  | VPCOp.setCrs entries regions =>
    if entries.length > 2 then (s, true)
    else
      let s := entries.foldl set_single s
      let s := if regions ≠ [] then { s with regions_f := regions } else s
      update_and_build_compound dd s
  | VPCOp.updateRegions regions =>
    update_and_build_compound dd { s with regions_f := regions }

/-- Run a sequence of operations from a state (keeping the state of raising
operations, as the Python object would). -/
def vpc_run (dd : DatumCtx) (s : VPCState) (ops : List VPCOp) : VPCState :=
  ops.foldl (fun s op => (vpc_step dd s op).1) s

/-- States a `VyperPipelineCRS` object can actually be in. -/
def VPCReachable (s : VPCState) : Prop :=
  ∃ dd ops, s = vpc_run dd VPCState.init ops

/-- Object invariant of `VyperPipelineCRS`: whenever the valid flag is set,
a compound CRS object has been built. -/
def VPCInv (s : VPCState) : Prop :=
  s.is_valid_f = true → s.ccrs.isSome = true

/-- Embedding of `VyperPipelineCRS.to_wkt`, parameterised by the external
`pyproj` serialiser for compound CRS objects; `Except.error` models the
attribute error of serialising an absent compound. -/
def vpc_to_wkt (wktOf : CCRS → String) (s : VPCState) :
    Except Unit (Option String) :=
  if s.is_valid_f then
    match s.ccrs with
    | some c => Except.ok (some (wktOf c))
    | none => Except.error ()
  else Except.ok none

/-! ## `DatumData.set_other_paths` (`vyperdatum/core.py`, lines 713-751)

Filesystem probes (`os.path.exists`, `get_grid_list`,
`read_regional_config`) are external and supplied as an oracle record; the
`pyproj` data-dir bookkeeping touches no `DatumData` state and is omitted.
Python dicts are embedded as insertion-ordered association lists whose
assignment updates an existing key in place. -/

/-- Python dict assignment `d[k] = v`: update the existing binding in place,
else append. -/
def assocSet {α : Type} : List (String × α) → String → α → List (String × α)
  | [], k, v => [(k, v)]
  | (k', v') :: rest, k, v =>
    if k' = k then (k, v) :: rest else (k', v') :: assocSet rest k v

/-- Python dict lookup `d.get(k)`. -/
def assocGet {α : Type} (l : List (String × α)) (k : String) : Option α :=
  (l.find? (fun p => p.1 = k)).map (·.2)

/-- Python `k in d`. -/
def hasKey {α : Type} (l : List (String × α)) (k : String) : Bool :=
  (assocGet l k).isSome

/-- Append to the list stored under a key (`d[k].append(v)`). -/
def assocAppend (l : List (String × List String)) (k v : String) :
    List (String × List String) :=
  l.map (fun p => if p.1 = k then (p.1, p.2 ++ [v]) else p)

/-- The filesystem/config oracle for `set_other_paths`. -/
structure FSModel where
  pathExists : String → Bool
  gridRegions : String → List String
  fileExists : String → Bool
  regionConfig : String → List (String × String)

/-- The `DatumData` region-catalog state touched by `set_other_paths`. -/
structure DatumDataState where
  regions : List String
  polygon_files : List (String × String)
  uncertainties : List (String × List (String × String))
  extended_region : List (String × List (String × String))
  extended_region_lookup : List (String × List String)
deriving DecidableEq

/-- The uncertainty table built for an extended region (lines 745-751).
Each `new_region_info['uncertainty_*']` is a plain dict lookup, so the
table only comes into existence when all seven keys are present; a missing
key raises `KeyError`, modelled as `none`. -/
def extended_unc_table (info : List (String × String)) :
    Option (List (String × String)) :=
  match assocGet info "uncertainty_tss", assocGet info "uncertainty_mhhw",
      assocGet info "uncertainty_mhw", assocGet info "uncertainty_mlw",
      assocGet info "uncertainty_mllw", assocGet info "uncertainty_dtl",
      assocGet info "uncertainty_mtl" with
  | some tss, some mhhw, some mhw, some mlw, some mllw, some dtl, some mtl =>
    some [("tss", tss), ("mhhw", mhhw), ("mhw", mhw), ("mlw", mlw),
          ("mllw", mllw), ("dtl", dtl), ("mtl", mtl)]
  | _, _, _, _, _, _, _ => none

/-- The registration of one valid extended region (lines 737-751): record it
under the config key, move it to the end of the region list (removing a
previous entry with the same name), and overwrite its polygon file, region
info and, when `uncertainty_tss` is present, its uncertainty table.  The
boolean reports the `KeyError` raised when `uncertainty_tss` is present but
a sibling `uncertainty_*` key is missing: the mutations made so far
persist, the uncertainty table is not assigned, and the exception
propagates. -/
def register_region (st : DatumDataState) (entry region polygon_file : String)
    (new_region_info : List (String × String)) : DatumDataState × Bool :=
  let st := { st with
    extended_region_lookup := assocAppend st.extended_region_lookup entry region }
  let st := { st with
    regions := (if region ∈ st.regions then st.regions.erase region
                else st.regions) ++ [region] }
  let st := { st with
    polygon_files := assocSet st.polygon_files region polygon_file }
  let st := { st with
    extended_region := assocSet st.extended_region region new_region_info }
  if hasKey new_region_info "uncertainty_tss" then
    match extended_unc_table new_region_info with
    | some tbl =>
      ({ st with uncertainties := assocSet st.uncertainties region tbl }, false)
    | none => (st, true)
  else (st, false)

/-- The per-region body of the `set_other_paths` inner loop (lines 728-751),
including the validity check — whose second `os.path.exists` call tests the
polygon file again, exactly as the source does.  A pending exception
(`acc.2`) aborts the remaining iterations. -/
def other_region_step (fs : FSModel) (new_path entry : String)
    (acc : DatumDataState × Bool) (region : String) : DatumDataState × Bool :=
  if acc.2 then acc
  else
    let st := acc.1
    let polygon_file := new_path ++ "/" ++ region ++ "/" ++ region ++ ".gpkg"
    let config_path := new_path ++ "/" ++ region ++ "/" ++ region ++ ".config"
    let new_region_info := fs.regionConfig config_path
    let valid_region :=
      fs.fileExists polygon_file && fs.fileExists polygon_file &&
      hasKey new_region_info "reference_frame" &&
      hasKey new_region_info "reference_geoid"
    if valid_region then
      register_region st entry region polygon_file new_region_info
    else (st, false)

/-- Python `s.endswith('_path')`, computed on the character list. -/
def endsWithPath (s : String) : Bool := (str "_path").isSuffixOf (str s)

/-- Embedding of `DatumData.set_other_paths`.  The boolean reports an
uncaught `KeyError` from a region registration, which aborts the remaining
work while keeping the mutations already applied. -/
def set_other_paths (fs : FSModel) (config : List (String × String))
    (st : DatumDataState) : DatumDataState × Bool :=
  let st := { st with extended_region := [] }
  config.foldl (fun acc kv =>
    if acc.2 then acc
    else if endsWithPath kv.1 ∧ kv.1 ≠ "vdatum_path" then
      if fs.pathExists kv.2 then
        let st1 := { acc.1 with
          extended_region_lookup :=
            assocSet acc.1.extended_region_lookup kv.1 [] }
        (fs.gridRegions kv.2).foldl (other_region_step fs kv.2 kv.1)
          (st1, false)
      else acc
    else acc) (st, false)

/-- Embedding of `DatumData.set_external_region_directory` (the config-file
write and logging aside): asserts the key shape (a failed assertion is a
raise with nothing mutated) and merges the single directory through
`set_other_paths`. -/
def set_external_region_directory (fs : FSModel) (st : DatumDataState)
    (external_path external_key : String) : DatumDataState × Bool :=
  if endsWithPath external_key then
    set_other_paths fs [(external_key, external_path)] st
  else (st, true)

/-! ## `VyperRaster.apply_sep` (`vyperdatum/raster.py`, lines 288-315)

Only the separation-application arithmetic is embedded (the layer-index
selection and logging above it read no separation data).  Rasters are
flattened to lists; `missing_idx = np.isnan(raster_vdatum_sep)` and the two
coverage policies are translated pointwise. -/

/-- The CATZOC-D uncertainty assigned to an out-of-coverage pixel when such
pixels are allowed: `3 - 0.06 * z`, overwritten with `3.0` where `z > 0`
(lines 312-314, expressed pointwise). -/
def catzoc_u (z : VFloat) : VFloat :=
  if vgt z (VFloat.fin 0) then VFloat.fin 3
  else vsub (VFloat.fin 3) (vmul (VFloat.fin (3/50)) z)

/-- Embedding of the separation application of `VyperRaster.apply_sep`:
computes the new elevation (with the height-convention sign) and
uncertainty layers, then applies the out-of-coverage policy at the pixels
whose separation is `nan`.  Returns the final elevation and uncertainty
layers. -/
def apply_sep (allow_points_outside_coverage is_height has_unc_layer : Bool)
    (elevation_layer uncertainty_layer sep sep_unc : List VFloat)
    (elev_nodata unc_nodata : VFloat) : List VFloat × List VFloat :=
  let missing_idx := sep.map visnan
  let final_elevation_layer :=
    if is_height then List.zipWith (fun e s => vsub (vneg e) s) elevation_layer sep
    else List.zipWith vsub elevation_layer sep
  let final_uncertainty_layer :=
    if has_unc_layer then List.zipWith vadd uncertainty_layer sep_unc
    else sep_unc
  if !allow_points_outside_coverage then
    (maskedFill final_elevation_layer elev_nodata missing_idx,
     maskedFill final_uncertainty_layer unc_nodata missing_idx)
  else
    let fe := maskedAssign final_elevation_layer elevation_layer missing_idx
    (fe, maskedAssign final_uncertainty_layer (fe.map catzoc_u) missing_idx)

/-! ## Concrete instances used by counterexamples and witnesses -/

/-- A one-point region whose pipeline run returns a NaN `z` (a value the
engine can produce: `transform_dataset` itself writes NaN `z` values, and
`~np.isinf` does not exclude them). -/
def regNanZ : RegionCtx :=
  { name := "NCcoast01_8301", gframe := "NAD83(2011)",
    geoid_name := "g2012bu0",
    pipeline := some "+proj=pipeline +step +proj=vgridshift",
    valid_pipeline := true,
    toGeoidFrame := fun x y z => (x, y, z),
    runPipeline := fun x y _ => (x, y, [VFloat.nan]),
    unc := VFloat.fin (13/200) }

/-- A call context whose horizontal frames all agree, with one region. -/
def ctxNanZ : TransformCtx :=
  { in_horiz_name := "NAD83(2011)", out_horiz_name := "NAD83(2011)",
    in_is_height := true, out_is_height := true,
    out_vyperdatum_str := "mllw", in_valid := true, out_valid := true,
    toOutFrame := fun x y z => (x, y, z), regions := [regNanZ] }

/-- A one-point store: `x` at reference 0, `y` at 1, `z` at 2. -/
def stNanZ : Store := [[VFloat.fin 1], [VFloat.fin 2], [VFloat.fin 3]]

/-- A region whose pipeline negates `z` (an ordinary in-coverage run). -/
def regNegZ : RegionCtx :=
  { name := "NCinner01_8301", gframe := "NAD83(2011)",
    geoid_name := "g2012bu0",
    pipeline := some "+proj=pipeline +step +proj=vgridshift",
    valid_pipeline := true,
    toGeoidFrame := fun x y z => (x, y, z),
    runPipeline := fun x y z => (x, y, z.map vneg),
    unc := VFloat.fin (13/200) }

/-- A call context with a depth (positive-down) input CRS, exercising the
`z = z.copy(); z *= -1` path. -/
def ctxDepthIn : TransformCtx :=
  { in_horiz_name := "NAD83(2011)", out_horiz_name := "NAD83(2011)",
    in_is_height := false, out_is_height := true,
    out_vyperdatum_str := "mllw", in_valid := true, out_valid := true,
    toOutFrame := fun x y z => (x, y, z), regions := [regNegZ] }

/-- A concrete `DatumData` environment for the state-machine instances. -/
def ddC4 : DatumCtx :=
  { vdatum_version := "vdatum_all_20220511", vyper_version := "0.1.6",
    geoidName := fun _ => "\\core\\geoid12b\\g2012bu0.gtx",
    geoidFrame := fun _ => "NAD83" }

/-- Build a valid `mllw` compound CRS over one region, then empty the
region list: the operation sequence of the `is_valid` counterexample. -/
def opsC4 : List VPCOp :=
  [VPCOp.setCrs [CRSEntry.vertDatumEntry "mllw"] ["TXlagmat01_8301"],
   VPCOp.setCrs [CRSEntry.horizEntry "NAD83(2011)"] [],
   VPCOp.updateRegions []]

/-- The valid state reached after the first two operations of `opsC4`. -/
def sValidC4 : VPCState := vpc_run ddC4 VPCState.init (opsC4.take 2)

/-- Filesystem oracle with one extended-region directory `P` holding a
single region `r1` with a complete config. -/
def fsC8 : FSModel :=
  { pathExists := fun p => p = "P",
    gridRegions := fun _ => ["r1"],
    fileExists := fun _ => true,
    regionConfig := fun _ =>
      [("reference_frame", "NAD83"), ("reference_geoid", "geoid12b"),
       ("uncertainty_tss", "0.05"), ("uncertainty_mhhw", "0.0"),
       ("uncertainty_mhw", "0.0"), ("uncertainty_mlw", "0.0"),
       ("uncertainty_mllw", "0.08"), ("uncertainty_dtl", "0.0"),
       ("uncertainty_mtl", "0.0")] }

/-- A catalog state in which `r1` is already registered (with its polygon
file and uncertainties) before the extended directory is merged. -/
def st0C8 : DatumDataState :=
  { regions := ["r1", "r2"],
    polygon_files := [("r1", "vdatum/r1/r1.kml"), ("r2", "vdatum/r2/r2.kml")],
    uncertainties := [("r1", [("tss", "0.01")])],
    extended_region := [], extended_region_lookup := [] }

/-! ## Lemmas about the string primitives -/

theorem isPrefixOf_append_self (p rest : Str) :
    p.isPrefixOf (p ++ rest) = true := by
  induction p with
  | nil => simp [List.isPrefixOf]
  | cons c cs ih => simp [List.isPrefixOf, ih]

theorem isPrefixOf_of_append_isPrefixOf :
    ∀ {p q s : Str}, (p ++ q).isPrefixOf s = true → p.isPrefixOf s = true := by
  intro p
  induction p with
  | nil => intro q s _; simp [List.isPrefixOf]
  | cons c cs ih =>
    intro q s h
    cases s with
    | nil => simp [List.isPrefixOf] at h
    | cons b bs =>
      simp only [List.cons_append, List.isPrefixOf, Bool.and_eq_true] at h ⊢
      exact ⟨h.1, ih h.2⟩

theorem containsSubstr_of_isPrefixOf {pat s : Str}
    (h : pat.isPrefixOf s = true) : containsSubstr pat s = true := by
  cases s with
  | nil =>
    cases pat with
    | nil => rfl
    | cons c cs => simp [List.isPrefixOf] at h
  | cons c cs => simp [containsSubstr, h]

theorem containsSubstr_mono {p q : Str} :
    ∀ {s : Str}, containsSubstr (p ++ q) s = true → containsSubstr p s = true := by
  intro s
  induction s with
  | nil =>
    intro h
    simp only [containsSubstr, List.isEmpty_iff, List.append_eq_nil] at h ⊢
    exact h.1
  | cons c cs ih =>
    intro h
    simp only [containsSubstr, Bool.or_eq_true] at h ⊢
    rcases h with h | h
    · exact Or.inl (isPrefixOf_of_append_isPrefixOf h)
    · exact Or.inr (ih h)

theorem eq_append_drop_of_isPrefixOf :
    ∀ {p s : Str}, p.isPrefixOf s = true → s = p ++ s.drop p.length := by
  intro p
  induction p with
  | nil => intro s _; simp
  | cons c cs ih =>
    intro s h
    cases s with
    | nil => simp [List.isPrefixOf] at h
    | cons b bs =>
      simp only [List.isPrefixOf, Bool.and_eq_true, beq_iff_eq] at h
      obtain ⟨rfl, hpre⟩ := h
      simpa using ih hpre

theorem replaceAllAux_nil (pat rep : Str) (fuel : Nat) :
    replaceAllAux pat rep fuel [] = [] := by
  cases fuel <;> rfl

theorem replaceAllAux_fuel_eq (pat rep : Str) :
    ∀ fuel1 fuel2 s, s.length ≤ fuel1 → s.length ≤ fuel2 →
      replaceAllAux pat rep fuel1 s = replaceAllAux pat rep fuel2 s := by
  intro fuel1
  induction fuel1 with
  | zero =>
    intro fuel2 s h1 _
    have hs : s = [] := by
      cases s with
      | nil => rfl
      | cons a as => simp at h1
    subst hs
    simp [replaceAllAux_nil]
  | succ n ih =>
    intro fuel2 s h1 h2
    cases s with
    | nil => simp [replaceAllAux_nil]
    | cons c cs =>
      cases fuel2 with
      | zero => simp at h2
      | succ m =>
        simp only [replaceAllAux]
        by_cases hc : pat ≠ [] ∧ pat.isPrefixOf (c :: cs) = true
        · rw [if_pos hc, if_pos hc]
          have hp : 1 ≤ pat.length := by
            cases pat with
            | nil => exact absurd rfl hc.1
            | cons a as => simp
          have hlen : ((c :: cs).drop pat.length).length ≤ n := by
            simp only [List.length_drop, List.length_cons]
            simp only [List.length_cons] at h1
            omega
          have hlen2 : ((c :: cs).drop pat.length).length ≤ m := by
            simp only [List.length_drop, List.length_cons]
            simp only [List.length_cons] at h2
            omega
          rw [ih _ _ hlen hlen2]
        · rw [if_neg hc, if_neg hc]
          have hlen : cs.length ≤ n := by
            simp only [List.length_cons] at h1; omega
          have hlen2 : cs.length ≤ m := by
            simp only [List.length_cons] at h2; omega
          rw [ih _ _ hlen hlen2]

theorem replaceAllAux_of_not_contains (pat rep : Str) :
    ∀ fuel s, containsSubstr pat s = false → replaceAllAux pat rep fuel s = s := by
  intro fuel
  induction fuel with
  | zero => intro s _; cases s <;> rfl
  | succ n ih =>
    intro s h
    cases s with
    | nil => rfl
    | cons c cs =>
      simp only [containsSubstr, Bool.or_eq_false_iff] at h
      simp only [replaceAllAux]
      rw [if_neg (by rintro ⟨-, hpre⟩; rw [h.1] at hpre; exact absurd hpre (by simp))]
      rw [ih cs h.2]

theorem replaceAll_of_not_contains {pat rep s : Str}
    (h : containsSubstr pat s = false) : replaceAll pat rep s = s :=
  replaceAllAux_of_not_contains pat rep s.length s h

theorem replaceAll_append_self {pat rep rest : Str} (hne : pat ≠ []) :
    replaceAll pat rep (pat ++ rest) = rep ++ replaceAll pat rep rest := by
  obtain ⟨c, cs, rfl⟩ : ∃ c cs, pat = c :: cs := by
    cases pat with
    | nil => exact absurd rfl hne
    | cons a as => exact ⟨a, as, rfl⟩
  show replaceAllAux (c :: cs) rep ((c :: cs) ++ rest).length ((c :: cs) ++ rest)
      = rep ++ replaceAllAux (c :: cs) rep rest.length rest
  have hfuel : ((c :: cs) ++ rest).length = (cs ++ rest).length + 1 := by simp
  rw [hfuel]
  have hshape : (c :: cs) ++ rest = c :: (cs ++ rest) := by simp
  rw [hshape]
  simp only [replaceAllAux]
  rw [if_pos ⟨hne, by simp [isPrefixOf_append_self (c :: cs) rest]⟩]
  have hdrop : (c :: (cs ++ rest)).drop (c :: cs).length = rest := by
    simp only [List.length_cons, List.drop_succ_cons]
    exact List.drop_left cs rest
  rw [hdrop]
  congr 1
  apply replaceAllAux_fuel_eq
  · simp
  · exact Nat.le_refl _

theorem containsSubstr_inv_space_of {l : Str}
    (h : containsSubstr (str "+inv") l = false) :
    containsSubstr (str "+inv ") l = false := by
  cases hc : containsSubstr (str "+inv ") l with
  | false => rfl
  | true =>
    have : containsSubstr (str "+inv" ++ str " ") l = true := hc
    rw [containsSubstr_mono this] at h
    exact absurd h (by simp)

/-! ## Claim theorems for the pipeline compiler -/

theorem invertLayer_invertLayer {l : Str} (h : wellFormedLayer l = true) :
    invertLayer (invertLayer l) = l := by
  by_cases hc : containsSubstr (str "+inv") l = true
  · have hwf : (str "+inv ").isPrefixOf l = true ∧
        containsSubstr (str "+inv") (l.drop (str "+inv ").length) = false := by
      simp only [wellFormedLayer, hc, Bool.not_true, Bool.false_or,
        Bool.and_eq_true, Bool.not_eq_true'] at h
      exact h
    have hl : l = str "+inv " ++ l.drop (str "+inv ").length :=
      eq_append_drop_of_isPrefixOf hwf.1
    have hrest : containsSubstr (str "+inv ") (l.drop (str "+inv ").length) = false :=
      containsSubstr_inv_space_of hwf.2
    have h1 : invertLayer l = l.drop (str "+inv ").length := by
      rw [invertLayer, if_pos hc]
      conv_lhs => rw [hl]
      rw [replaceAll_append_self (by decide), replaceAll_of_not_contains hrest]
      simp
    rw [h1, invertLayer, if_neg (by simp [hwf.2])]
    show str "+inv" ++ str " " ++ l.drop (str "+inv ").length = l
    rw [List.append_assoc]
    exact hl.symm
  · have hcf : containsSubstr (str "+inv") l = false := by
      simpa using hc
    have h1 : invertLayer l = str "+inv " ++ l := by
      rw [invertLayer, if_neg (by simp [hcf])]
      show str "+inv" ++ str " " ++ l = str "+inv " ++ l
      rw [List.append_assoc]
      rfl
    have hsplit : str "+inv " ++ l = str "+inv" ++ (str " " ++ l) := by
      rw [← List.append_assoc]
      rfl
    have hc2 : containsSubstr (str "+inv") (str "+inv " ++ l) = true := by
      rw [hsplit]
      exact containsSubstr_of_isPrefixOf (isPrefixOf_append_self _ _)
    rw [h1, invertLayer, if_pos hc2,
      replaceAll_append_self (by decide),
      replaceAll_of_not_contains (containsSubstr_inv_space_of hcf)]
    simp

/-- C5 counterexample: `inverse_datum_def` is not an involution on every
step list.  The layer `'a +inv b'` contains `'+inv'`, so the first
inversion strips the embedded `'+inv '` (yielding `'a b'`) instead of
toggling a leading marker, and the second inversion produces `'+inv a b'`,
not the original layer. -/
theorem inverse_datum_def_not_involutive :
    inverse_datum_def (inverse_datum_def [str "a +inv b"]) ≠ [str "a +inv b"] := by
  decide

/-- C5 (amended): on step lists whose layers are well formed — each layer
either contains no `'+inv'` marker, or is exactly `'+inv '` followed by a
marker-free remainder, as every layer of `datum_definition` is —
`inverse_datum_def` is an involution: reversal plus per-layer toggling
returns the original list. -/
theorem inverse_datum_def_involutive_of_wellFormed (L : List Str)
    (h : ∀ l ∈ L, wellFormedLayer l = true) :
    inverse_datum_def (inverse_datum_def L) = L := by
  unfold inverse_datum_def
  rw [← List.map_reverse, List.reverse_reverse, List.map_map]
  have hcongr : ∀ l ∈ L, (invertLayer ∘ invertLayer) l = id l := fun l hl =>
    invertLayer_invertLayer (h l hl)
  rw [List.map_congr_left hcongr, List.map_id]

/-- Witness for the amended C5 theorem at the `mllw` step list. -/
theorem inverse_datum_def_involutive_of_wellFormed_witness :
    (∀ l ∈ mllwSteps, wellFormedLayer l = true) ∧
    inverse_datum_def (inverse_datum_def mllwSteps) = mllwSteps :=
  ⟨by decide, inverse_datum_def_involutive_of_wellFormed mllwSteps (by decide)⟩

/-- C1: at the step lists `['a','b','a']` and `['a','c','a']` the collection
loop of `compare_datums` does not stop at the first disagreement (contrary
to its own docstring, "Stop when they do not agree"): position 2 matches
again, so both copies of `'a'` are removed from both lists, where removing
exactly the longest common prefix would leave `(['b','a'], ['c','a'])`. -/
theorem compare_datums_removes_matches_beyond_first_disagreement :
    compare_datums [str "a", str "b", str "a"] [str "a", str "c", str "a"]
      = ([str "b"], [str "c"]) ∧
    compare_and_reduce_spec [str "a", str "b", str "a"]
      [str "a", str "c", str "a"]
      = ([str "b", str "a"], [str "c", str "a"]) := by
  decide

/-- Supporting fact for C1: on the step lists actually stored in
`datum_definition`, positional matches form a prefix, so `compare_datums`
agrees with longest-common-prefix removal on every pair the program uses. -/
theorem compare_datums_agrees_on_datum_definition :
    ∀ p1 ∈ datum_definition, ∀ p2 ∈ datum_definition,
      compare_datums p1.2 p2.2 = compare_and_reduce_spec p1.2 p2.2 := by
  decide

/-- C2: for every datum name `d` (any string, compared case-insensitively)
and any region and geoid names, `get_regional_pipeline d d r g` returns the
null pipeline (`None`) and raises no error. -/
theorem get_regional_pipeline_same_datum_noop (d r g : Str) :
    get_regional_pipeline d d r g = Except.ok none := by
  simp [get_regional_pipeline]

/-- C7: when the two datum names differ after lowercasing and at least one
of them is not a key of `datum_definition`, `get_regional_pipeline` raises
the unsupported-datum `ValueError`, whatever the region and geoid names. -/
theorem get_regional_pipeline_unknown_datum_error
    (from_datum to_datum region_name geoid_name : Str)
    (hne : lowerStr from_datum ≠ lowerStr to_datum)
    (hmiss : lookupDatum (lowerStr from_datum) = none ∨
      lookupDatum (lowerStr to_datum) = none) :
    ∃ d, get_regional_pipeline from_datum to_datum region_name geoid_name =
      Except.error (PipeErr.unsupportedDatum d) := by
  unfold get_regional_pipeline
  rw [if_neg hne]
  cases hf : lookupDatum (lowerStr from_datum) with
  | none => exact ⟨lowerStr from_datum, rfl⟩
  | some df =>
    have ht : lookupDatum (lowerStr to_datum) = none := by
      rcases hmiss with h | h
      · rw [hf] at h; exact absurd h (by simp)
      · exact h
    exact ⟨lowerStr to_datum, by rw [ht]⟩

/-- Witness for C7: `'foo'` is not a datum-definition key. -/
theorem get_regional_pipeline_unknown_datum_error_witness :
    (lowerStr (str "foo") ≠ lowerStr (str "mllw") ∧
      lookupDatum (lowerStr (str "foo")) = none) ∧
    ∃ d, get_regional_pipeline (str "foo") (str "mllw") (str "r") (str "g") =
      Except.error (PipeErr.unsupportedDatum d) :=
  ⟨⟨by decide, by decide⟩,
    get_regional_pipeline_unknown_datum_error (str "foo") (str "mllw")
      (str "r") (str "g") (by decide) (Or.inl (by decide))⟩

/-! ## Lemmas about the array store and the masked writes -/

theorem readA_append {st : Store} {v : List VFloat} {q : Nat}
    (h : q < st.length) : readA (st ++ [v]) q = readA st q := by
  induction st generalizing q with
  | nil => simp at h
  | cons a as ih =>
    cases q with
    | zero => rfl
    | succ n =>
      simp only [List.cons_append, readA, List.getD_cons_succ]
      exact ih (by simp only [List.length_cons] at h; omega)

theorem readA_set_ne {st : Store} {r q : Nat} {v : List VFloat}
    (h : q ≠ r) : readA (writeA st r v) q = readA st q := by
  induction st generalizing r q with
  | nil => rfl
  | cons a as ih =>
    cases r with
    | zero =>
      cases q with
      | zero => exact absurd rfl h
      | succ n => rfl
    | succ m =>
      cases q with
      | zero => rfl
      | succ n => exact ih (by omega)

theorem Pres_refl {n : Nat} {st0 : Store} (h : n ≤ st0.length) :
    Pres n st0 st0 :=
  ⟨h, fun _ _ => rfl⟩

theorem Pres_alloc {n : Nat} {st0 st : Store} {v : List VFloat}
    (h : Pres n st0 st) : Pres n st0 (allocA st v).1 := by
  refine ⟨by have := h.1; simp only [allocA, List.length_append]; omega,
    fun q hq => ?_⟩
  rw [allocA, readA_append (lt_of_lt_of_le hq h.1)]
  exact h.2 q hq

theorem allocA_ref_ge {n : Nat} {st0 st : Store} {v : List VFloat}
    (h : Pres n st0 st) : n ≤ (allocA st v).2 := h.1

theorem Pres_write {n : Nat} {st0 st : Store} {r : Nat} {v : List VFloat}
    (hr : n ≤ r) (h : Pres n st0 st) : Pres n st0 (writeA st r v) := by
  refine ⟨by simp only [writeA, List.length_set]; exact h.1, fun q hq => ?_⟩
  rw [readA_set_ne (by omega)]
  exact h.2 q hq

theorem Pres_write_back {n : Nat} {st0 st : Store} {ansx ansy ansz : Nat}
    {ansu ansr : Option Nat}
    {w : List VFloat × List VFloat × List VFloat ×
      Option (List VFloat) × Option (List VFloat)}
    (hax : n ≤ ansx) (hay : n ≤ ansy) (haz : n ≤ ansz)
    (hau : ∀ r, ansu = some r → n ≤ r) (har : ∀ r, ansr = some r → n ≤ r)
    (h : Pres n st0 st) :
    Pres n st0 (write_back st ansx ansy ansz ansu ansr w) := by
  unfold write_back
  dsimp only
  have h1 : Pres n st0 (writeA (writeA (writeA st ansx w.1) ansy w.2.1) ansz w.2.2.1) :=
    Pres_write haz (Pres_write hay (Pres_write hax h))
  cases hu : ansu with
  | none =>
    cases hr2 : ansr with
    | none => exact h1
    | some rr =>
      cases w.2.2.2.2 with
      | none => exact h1
      | some v => exact Pres_write (har rr hr2) h1
  | some ru =>
    cases w.2.2.2.1 with
    | none =>
      cases hr2 : ansr with
      | none => exact h1
      | some rr =>
        cases w.2.2.2.2 with
        | none => exact h1
        | some v => exact Pres_write (har rr hr2) h1
    | some vu =>
      have h2 : Pres n st0 (writeA (writeA (writeA (writeA st ansx w.1) ansy w.2.1) ansz w.2.2.1) ru vu) :=
        Pres_write (hau ru hu) h1
      cases hr2 : ansr with
      | none => exact h2
      | some rr =>
        cases w.2.2.2.2 with
        | none => exact h2
        | some v => exact Pres_write (har rr hr2) h2

theorem Pres_region_step {n : Nat} {st0 : Store} {ctx : TransformCtx}
    {flip : VFloat} {ansx ansy ansz : Nat} {ansu ansr : Option Nat}
    {xr yr zr : Nat} {acc : Store × List String} {cr : Nat × RegionCtx}
    (hax : n ≤ ansx) (hay : n ≤ ansy) (haz : n ≤ ansz)
    (hau : ∀ r, ansu = some r → n ≤ r) (har : ∀ r, ansr = some r → n ≤ r)
    (h : Pres n st0 acc.1) :
    Pres n st0
      ((transform_region_step ctx flip ansx ansy ansz ansu ansr xr yr zr acc cr).1) := by
  unfold transform_region_step
  dsimp only
  split
  · exact h
  · exact Pres_write_back hax hay haz hau har h

theorem Pres_region_fold {n : Nat} {st0 : Store} (ctx : TransformCtx)
    (flip : VFloat) {ansx ansy ansz : Nat} {ansu ansr : Option Nat}
    (xr yr zr : Nat)
    (hax : n ≤ ansx) (hay : n ≤ ansy) (haz : n ≤ ansz)
    (hau : ∀ r, ansu = some r → n ≤ r) (har : ∀ r, ansr = some r → n ≤ r) :
    ∀ (l : List (Nat × RegionCtx)) (acc : Store × List String),
      Pres n st0 acc.1 →
      Pres n st0
        ((l.foldl (transform_region_step ctx flip ansx ansy ansz ansu ansr xr yr zr) acc).1) := by
  intro l
  induction l with
  | nil => intro acc h; exact h
  | cons p ps ih =>
    intro acc h
    exact ih _ (Pres_region_step hax hay haz hau har h)

theorem Pres_cond_alloc (b : Bool) (v : List VFloat) {n : Nat}
    {st0 st : Store} (h : Pres n st0 st) :
    Pres n st0
      ((if b then ((allocA st v).1, some (allocA st v).2)
        else (st, (none : Option Nat))).1) ∧
    ∀ r, (if b then ((allocA st v).1, some (allocA st v).2)
        else (st, (none : Option Nat))).2 = some r → n ≤ r := by
  cases b with
  | false => exact ⟨h, fun r hr => Option.noConfusion hr⟩
  | true =>
    refine ⟨Pres_alloc h, fun r hr => ?_⟩
    cases hr
    exact allocA_ref_ge h

theorem transform_setup_spec (ctx : TransformCtx) (st0 : Store) (xr yr : Nat)
    (zopt : Option Nat) (iu ir : Bool) :
    Pres st0.length st0 (transform_setup ctx st0 xr yr zopt iu ir).st ∧
    st0.length ≤ (transform_setup ctx st0 xr yr zopt iu ir).ansx ∧
    st0.length ≤ (transform_setup ctx st0 xr yr zopt iu ir).ansy ∧
    st0.length ≤ (transform_setup ctx st0 xr yr zopt iu ir).ansz ∧
    (∀ r, (transform_setup ctx st0 xr yr zopt iu ir).ansu = some r →
      st0.length ≤ r) ∧
    (∀ r, (transform_setup ctx st0 xr yr zopt iu ir).ansr = some r →
      st0.length ≤ r) := by
  unfold transform_setup
  have h0 : Pres st0.length st0 st0 := Pres_refl (Nat.le_refl _)
  cases zopt with
  | some zrf =>
    cases hih : ctx.in_is_height with
    | true =>
      simp only [hih, Bool.not_true, if_false]
      exact ⟨(Pres_cond_alloc ir _
          ((Pres_cond_alloc iu _ (Pres_alloc (Pres_alloc (Pres_alloc h0)))).1)).1,
        allocA_ref_ge h0,
        allocA_ref_ge (Pres_alloc h0),
        allocA_ref_ge (Pres_alloc (Pres_alloc h0)),
        (Pres_cond_alloc iu _ (Pres_alloc (Pres_alloc (Pres_alloc h0)))).2,
        (Pres_cond_alloc ir _
          ((Pres_cond_alloc iu _ (Pres_alloc (Pres_alloc (Pres_alloc h0)))).1)).2⟩
    | false =>
      simp only [hih, Bool.not_false, if_true]
      have hcopy : Pres st0.length st0
          (writeA (allocA st0 (readA st0 zrf)).1 (allocA st0 (readA st0 zrf)).2
            ((readA (allocA st0 (readA st0 zrf)).1
              (allocA st0 (readA st0 zrf)).2).map vneg)) :=
        Pres_write (allocA_ref_ge h0) (Pres_alloc h0)
      exact ⟨(Pres_cond_alloc ir _
          ((Pres_cond_alloc iu _ (Pres_alloc (Pres_alloc (Pres_alloc hcopy)))).1)).1,
        allocA_ref_ge hcopy,
        allocA_ref_ge (Pres_alloc hcopy),
        allocA_ref_ge (Pres_alloc (Pres_alloc hcopy)),
        (Pres_cond_alloc iu _ (Pres_alloc (Pres_alloc (Pres_alloc hcopy)))).2,
        (Pres_cond_alloc ir _
          ((Pres_cond_alloc iu _ (Pres_alloc (Pres_alloc (Pres_alloc hcopy)))).1)).2⟩
  | none =>
    dsimp only
    exact ⟨(Pres_cond_alloc ir _
        ((Pres_cond_alloc iu _
          (Pres_alloc (Pres_alloc (Pres_alloc (Pres_alloc h0))))).1)).1,
      allocA_ref_ge h0,
      allocA_ref_ge (Pres_alloc h0),
      allocA_ref_ge (Pres_alloc (Pres_alloc (Pres_alloc h0))),
      (Pres_cond_alloc iu _
        (Pres_alloc (Pres_alloc (Pres_alloc (Pres_alloc h0))))).2,
      (Pres_cond_alloc ir _
        ((Pres_cond_alloc iu _
          (Pres_alloc (Pres_alloc (Pres_alloc (Pres_alloc h0))))).1)).2⟩

/-! ## Claim theorems for `transform_dataset` -/

/-- C10: `transform_dataset` never mutates the caller's arrays: whatever the
oracle context, the input `x`, `y` and (when given) `z` arrays hold the same
values after the call, because the sign negation acts on a fresh copy of `z`
and every in-place write targets a freshly allocated accumulator. -/
theorem transform_dataset_preserves_inputs (ctx : TransformCtx) (st0 : Store)
    (xr yr : Nat) (zopt : Option Nat) (iu ir : Bool)
    (hx : xr < st0.length) (hy : yr < st0.length)
    (hz : ∀ zrf, zopt = some zrf → zrf < st0.length) :
    readA (transform_dataset ctx st0 xr yr zopt iu ir).1 xr = readA st0 xr ∧
    readA (transform_dataset ctx st0 xr yr zopt iu ir).1 yr = readA st0 yr ∧
    ∀ zrf, zopt = some zrf →
      readA (transform_dataset ctx st0 xr yr zopt iu ir).1 zrf = readA st0 zrf := by
  have key : ∀ q, q < st0.length →
      readA (transform_dataset ctx st0 xr yr zopt iu ir).1 q = readA st0 q := by
    intro q hq
    obtain ⟨hp, hx1, hy1, hz1, hu1, hr1⟩ :=
      transform_setup_spec ctx st0 xr yr zopt iu ir
    have hfold := Pres_region_fold ctx
      (if ctx.out_is_height then VFloat.fin 1 else VFloat.fin (-1))
      xr yr (transform_setup ctx st0 xr yr zopt iu ir).zr
      hx1 hy1 hz1 hu1 hr1 ctx.regions.enum
      ((transform_setup ctx st0 xr yr zopt iu ir).st, []) hp
    unfold transform_dataset
    split
    · rfl
    split
    · rfl
    split
    · rfl
    dsimp only
    rw [apply_ite Prod.fst]
    dsimp only
    rw [ite_self]
    exact hfold.2 q hq
  exact ⟨key xr hx, key yr hy, fun zrf hzr => key zrf (hz zrf hzr)⟩

/-- Witness for C10 at a depth-convention one-point call (exercising the
`z.copy()` negation path): the caller's arrays are untouched. -/
theorem transform_dataset_preserves_inputs_witness :
    (0 < stNanZ.length ∧ 1 < stNanZ.length ∧
      ∀ zrf, (some 2 : Option Nat) = some zrf → zrf < stNanZ.length) ∧
    (readA (transform_dataset ctxDepthIn stNanZ 0 1 (some 2) true true).1 0 =
      readA stNanZ 0 ∧
    readA (transform_dataset ctxDepthIn stNanZ 0 1 (some 2) true true).1 1 =
      readA stNanZ 1 ∧
    readA (transform_dataset ctxDepthIn stNanZ 0 1 (some 2) true true).1 2 =
      readA stNanZ 2) := by
  refine ⟨⟨by decide, by decide, ?_⟩, ?_⟩
  · intro zrf h
    cases h
    decide
  · obtain ⟨ha, hb, hc⟩ := transform_dataset_preserves_inputs ctxDepthIn stNanZ
      0 1 (some 2) true true (by decide) (by decide)
      (fun zrf h => by cases h; decide)
    exact ⟨ha, hb, hc 2 rfl⟩

theorem maskedAssign_getD_of_mask_false :
    ∀ (as1 ns : List VFloat) (ms : List Bool) (i : Nat) (d : VFloat),
      ms.getD i false = false →
      (maskedAssign as1 ns ms).getD i d = as1.getD i d := by
  intro as1
  induction as1 with
  | nil => intro ns ms i d _; rfl
  | cons a as2 ih =>
    intro ns ms i d h
    cases ns with
    | nil => rfl
    | cons nn ns2 =>
      cases ms with
      | nil => rfl
      | cons m ms2 =>
        cases i with
        | zero =>
          have hm : m = false := by simpa using h
          simp [maskedAssign, hm]
        | succ j =>
          have := ih ns2 ms2 j d (by simpa using h)
          simpa [maskedAssign] using this

theorem maskedFill_getD_of_mask_false :
    ∀ (as1 : List VFloat) (v : VFloat) (ms : List Bool) (i : Nat) (d : VFloat),
      ms.getD i false = false →
      (maskedFill as1 v ms).getD i d = as1.getD i d := by
  intro as1
  induction as1 with
  | nil => intro v ms i d _; rfl
  | cons a as2 ih =>
    intro v ms i d h
    cases ms with
    | nil => rfl
    | cons m ms2 =>
      cases i with
      | zero =>
        have hm : m = false := by simpa using h
        simp [maskedFill, hm]
      | succ j =>
        have := ih v ms2 j d (by simpa using h)
        simpa [maskedFill] using this

theorem map_not_visinf_getD_false {nz : List VFloat} {i : Nat}
    (h : visinf (nz.getD i VFloat.nan) = true) :
    (nz.map (fun v => !(visinf v))).getD i false = false := by
  induction nz generalizing i with
  | nil =>
    have hnil : ([] : List VFloat).getD i VFloat.nan = VFloat.nan := by
      cases i <;> rfl
    rw [hnil] at h
    exact absurd h (by decide)
  | cons a as2 ih =>
    cases i with
    | zero => simpa using h
    | succ j =>
      have := ih (by simpa using h)
      simpa using this

/-- C3 (amended): the per-region write-back skips exactly the points whose
transformed `z` is *infinite*: the mask is `~np.isinf(new_z)`, so at an
index with infinite `new_z` none of the five accumulator arrays changes.
NaN `z` values pass the mask and are written (see the counterexample). -/
theorem region_write_skips_inf_points
    (flip : VFloat) (cnt : Nat) (uncval : VFloat)
    (new_x new_y new_z ans_x ans_y ans_z : List VFloat)
    (ans_unc ans_region : Option (List VFloat)) (i : Nat) (d : VFloat)
    (h : visinf (new_z.getD i VFloat.nan) = true) :
    (region_write flip cnt uncval new_x new_y new_z ans_x ans_y ans_z
      ans_unc ans_region).1.getD i d = ans_x.getD i d ∧
    (region_write flip cnt uncval new_x new_y new_z ans_x ans_y ans_z
      ans_unc ans_region).2.1.getD i d = ans_y.getD i d ∧
    (region_write flip cnt uncval new_x new_y new_z ans_x ans_y ans_z
      ans_unc ans_region).2.2.1.getD i d = ans_z.getD i d ∧
    ((region_write flip cnt uncval new_x new_y new_z ans_x ans_y ans_z
      ans_unc ans_region).2.2.2.1.getD []).getD i d =
      (ans_unc.getD []).getD i d ∧
    ((region_write flip cnt uncval new_x new_y new_z ans_x ans_y ans_z
      ans_unc ans_region).2.2.2.2.getD []).getD i d =
      (ans_region.getD []).getD i d := by
  have hm := map_not_visinf_getD_false h
  unfold region_write
  dsimp only
  refine ⟨maskedAssign_getD_of_mask_false _ _ _ _ _ hm,
    maskedAssign_getD_of_mask_false _ _ _ _ _ hm,
    maskedAssign_getD_of_mask_false _ _ _ _ _ hm, ?_, ?_⟩
  · cases ans_unc with
    | none => rfl
    | some u => simpa using maskedFill_getD_of_mask_false u uncval _ i d hm
  · cases ans_region with
    | none => rfl
    | some rg =>
      simpa using maskedFill_getD_of_mask_false rg (VFloat.fin (wrap8 cnt)) _ i d hm

/-- Witness for the amended C3 theorem at a one-point region whose
transformed `z` is `+inf`: nothing is written. -/
theorem region_write_skips_inf_points_witness :
    visinf ([VFloat.inf].getD 0 VFloat.nan) = true ∧
    (region_write (VFloat.fin 1) 0 (VFloat.fin 1) [VFloat.fin 9]
      [VFloat.fin 8] [VFloat.inf] [VFloat.nan] [VFloat.nan] [VFloat.nan]
      (some [VFloat.nan]) (some [VFloat.fin (-1)])).1.getD 0 VFloat.nan =
      [VFloat.nan].getD 0 VFloat.nan :=
  ⟨by decide,
    (region_write_skips_inf_points (VFloat.fin 1) 0 (VFloat.fin 1)
      [VFloat.fin 9] [VFloat.fin 8] [VFloat.inf] [VFloat.nan] [VFloat.nan]
      [VFloat.nan] (some [VFloat.nan]) (some [VFloat.fin (-1)]) 0 VFloat.nan
      (by decide)).1⟩

/-- C3 counterexample: a point whose transformed `z` is NaN (non-finite) is
*written* by the region's pass, because the coverage mask is `~np.isinf`,
not `np.isfinite`.  In a one-point call whose pipeline returns `z = NaN`,
the region-index accumulator (reference 7, allocated with `-1`) ends as
`0`: the region wrote the point, contradicting the claim that non-finite
points are left unchanged. -/
theorem transform_dataset_writes_nan_point :
    regNanZ.runPipeline [VFloat.fin 1] [VFloat.fin 2] [VFloat.fin 3] =
      ([VFloat.fin 1], [VFloat.fin 2], [VFloat.nan]) ∧
    readA (transform_dataset ctxNanZ stNanZ 0 1 (some 2) true true).1 7 =
      [VFloat.fin 0] ∧
    readA (transform_dataset ctxNanZ stNanZ 0 1 (some 2) true true).1 7 ≠
      [VFloat.fin (-1)] := by
  refine ⟨by decide, by decide, by decide⟩

/-! ## Lemmas about the `VyperPipelineCRS` state machine -/

theorem set_single_is_valid (s : VPCState) (e : CRSEntry) :
    (set_single s e).is_valid_f = s.is_valid_f := by
  cases e <;> unfold set_single new_vert_extract <;> dsimp only <;>
    repeat' split <;> rfl

theorem foldl_set_single_is_valid :
    ∀ (entries : List CRSEntry) (s : VPCState),
      (entries.foldl set_single s).is_valid_f = s.is_valid_f := by
  intro entries
  induction entries with
  | nil => intro s; rfl
  | cons e es ih =>
    intro s
    rw [List.foldl_cons, ih, set_single_is_valid]

theorem uabc_build_fields (dd : DatumCtx) (s : VPCState) :
    (uabc_build dd s).1.is_valid_f = s.is_valid_f ∧
    (uabc_build dd s).1.hori_f = s.hori_f ∧
    (uabc_build dd s).1.ccrs = s.ccrs := by
  unfold uabc_build
  repeat' split
  all_goals exact ⟨rfl, rfl, rfl⟩

theorem uabc_check_is_valid (s : VPCState) :
    (uabc_check s).1.is_valid_f =
      (s.is_valid_f || (s.hori_f.isSome && valid_vert s.vert_f)) := by
  unfold uabc_check
  cases hh : s.hori_f with
  | none => simp [hh, valid_vert]
  | some h =>
    cases hv : s.vert_f with
    | none => simp [hh, hv, valid_vert]
    | some v =>
      dsimp only
      by_cases hvv : valid_vert (some v) = true
      · rw [if_pos hvv]
        repeat' split
        all_goals simp [hh, hv, hvv]
      · rw [if_neg hvv]
        simp only [Bool.not_eq_true] at hvv
        simp [hh, hv, hvv]

theorem uabc_check_fields (s : VPCState) :
    (uabc_check s).1.hori_f = s.hori_f ∧
    (uabc_check s).1.vert_f = s.vert_f := by
  unfold uabc_check
  repeat' split
  all_goals exact ⟨rfl, rfl⟩

theorem uabc_is_valid_mono (dd : DatumCtx) (s : VPCState)
    (h : s.is_valid_f = true) :
    ((update_and_build_compound dd s).1).is_valid_f = true := by
  unfold update_and_build_compound
  dsimp only
  by_cases hb : (uabc_build dd s).2 = true
  · rw [if_pos hb, (uabc_build_fields dd s).1]
    exact h
  · rw [if_neg hb, uabc_check_is_valid, (uabc_build_fields dd s).1, h]
    rfl

theorem uabc_is_valid_sources (dd : DatumCtx) (s : VPCState)
    (h : ((update_and_build_compound dd s).1).is_valid_f = true) :
    s.is_valid_f = true ∨
    (((update_and_build_compound dd s).1).hori_f.isSome = true ∧
      valid_vert ((update_and_build_compound dd s).1).vert_f = true) := by
  unfold update_and_build_compound at h ⊢
  dsimp only at h ⊢
  by_cases hb : (uabc_build dd s).2 = true
  · rw [if_pos hb] at h
    rw [(uabc_build_fields dd s).1] at h
    exact Or.inl h
  · rw [if_neg hb] at h ⊢
    rw [uabc_check_is_valid, (uabc_build_fields dd s).1] at h
    rcases Bool.or_eq_true_iff.mp h with h1 | h1
    · exact Or.inl h1
    · rw [(uabc_check_fields (uabc_build dd s).1).1,
        (uabc_check_fields (uabc_build dd s).1).2]
      exact Or.inr (by simpa using h1)

theorem uabc_is_valid_of_check (dd : DatumCtx) (s : VPCState)
    (hr : (update_and_build_compound dd s).2 = false)
    (hh : ((update_and_build_compound dd s).1).hori_f.isSome = true)
    (hv : valid_vert ((update_and_build_compound dd s).1).vert_f = true) :
    ((update_and_build_compound dd s).1).is_valid_f = true := by
  unfold update_and_build_compound at hr hh hv ⊢
  dsimp only at hr hh hv ⊢
  by_cases hb : (uabc_build dd s).2 = true
  · rw [if_pos hb] at hr
    rw [hb] at hr
    exact absurd hr (by simp)
  · rw [if_neg hb] at hh hv ⊢
    rw [(uabc_check_fields (uabc_build dd s).1).1] at hh
    rw [(uabc_check_fields (uabc_build dd s).1).2] at hv
    rw [uabc_check_is_valid, hh, hv]
    simp

/-! ## Claim theorems for the compound-CRS state machine -/

/-- C4 (amended): across every `set_crs` / `update_regions` operation,
`is_valid` is monotone — once true it can never return to false, whatever
the operation does (in particular emptying the region list leaves it
true) — and it can only have become true at an operation whose final state
holds a horizontal CRS and a vertical CRS whose remarks carry the four
provenance markers; conversely any non-raising operation ending in such a
state sets `is_valid`.  A non-empty region list is needed only while the
remarks are first built, not for `is_valid` to remain true. -/
theorem vpc_is_valid_monotone_characterization (dd : DatumCtx)
    (s : VPCState) (op : VPCOp) :
    (s.is_valid_f = true → ((vpc_step dd s op).1).is_valid_f = true) ∧
    (((vpc_step dd s op).1).is_valid_f = true →
      s.is_valid_f = true ∨
      (((vpc_step dd s op).1).hori_f.isSome = true ∧
        valid_vert ((vpc_step dd s op).1).vert_f = true)) ∧
    ((vpc_step dd s op).2 = false →
      ((vpc_step dd s op).1).hori_f.isSome = true →
      valid_vert ((vpc_step dd s op).1).vert_f = true →
      ((vpc_step dd s op).1).is_valid_f = true) := by
  cases op with
  | setCrs entries regions =>
    unfold vpc_step
    dsimp only
    by_cases hlen : entries.length > 2
    · rw [if_pos hlen]
      exact ⟨fun h => h, fun h => Or.inl h, fun hr => absurd hr (by simp)⟩
    · rw [if_neg hlen]
      have hpre : (if regions ≠ [] then
          { entries.foldl set_single s with regions_f := regions }
          else entries.foldl set_single s).is_valid_f = s.is_valid_f := by
        split <;> exact foldl_set_single_is_valid entries s
      refine ⟨fun h => uabc_is_valid_mono dd _ (by rw [hpre]; exact h),
        fun h => ?_, fun hr hh hv => uabc_is_valid_of_check dd _ hr hh hv⟩
      rcases uabc_is_valid_sources dd _ h with h1 | h1
      · exact Or.inl (by rw [hpre] at h1; exact h1)
      · exact Or.inr h1
  | updateRegions regions =>
    unfold vpc_step
    dsimp only
    refine ⟨fun h => uabc_is_valid_mono dd _ h,
      fun h => ?_, fun hr hh hv => uabc_is_valid_of_check dd _ hr hh hv⟩
    rcases uabc_is_valid_sources dd _ h with h1 | h1
    · exact Or.inl h1
    · exact Or.inr h1

set_option maxRecDepth 100000 in
/-- Witness for the amended C4 theorem: from the valid two-operation state,
`update_regions([])` keeps `is_valid` true (by monotonicity). -/
theorem vpc_is_valid_monotone_characterization_witness :
    sValidC4.is_valid_f = true ∧
    ((vpc_step ddC4 sValidC4 (VPCOp.updateRegions [])).1).is_valid_f = true := by
  have h : sValidC4.is_valid_f = true := by rfl
  exact ⟨h,
    (vpc_is_valid_monotone_characterization ddC4 sValidC4
      (VPCOp.updateRegions [])).1 h⟩

set_option maxRecDepth 100000 in
/-- C4 counterexample: build a valid compound CRS (vertical `mllw` with one
region, then a horizontal), then call `update_regions([])`.  The region
list is now empty — one of the four components is absent — yet `is_valid`
is still true: nothing ever resets `_is_valid`, so validity is not the
claimed atomic conjunction of the four components. -/
theorem vpc_is_valid_true_with_empty_regions :
    (vpc_run ddC4 VPCState.init opsC4).regions_f = [] ∧
    (vpc_run ddC4 VPCState.init opsC4).is_valid_f = true := by
  exact ⟨rfl, rfl⟩

theorem set_single_inv (s : VPCState) (e : CRSEntry) (h : VPCInv s) :
    VPCInv (set_single s e) := by
  have hval := set_single_is_valid s e
  intro hv
  rw [hval] at hv
  cases e <;> unfold set_single new_vert_extract <;> dsimp only <;>
    repeat' split
  all_goals simp_all [VPCInv]

theorem foldl_set_single_inv :
    ∀ (entries : List CRSEntry) (s : VPCState), VPCInv s →
      VPCInv (entries.foldl set_single s) := by
  intro entries
  induction entries with
  | nil => intro s h; exact h
  | cons e es ih => intro s h; exact ih _ (set_single_inv s e h)

theorem uabc_check_inv (s : VPCState) (h : VPCInv s) :
    VPCInv (uabc_check s).1 := by
  unfold uabc_check
  repeat' split
  all_goals intro hv
  all_goals first
    | exact h hv
    | rfl

theorem uabc_inv (dd : DatumCtx) (s : VPCState) (h : VPCInv s) :
    VPCInv ((update_and_build_compound dd s).1) := by
  unfold update_and_build_compound
  dsimp only
  by_cases hb : (uabc_build dd s).2 = true
  · rw [if_pos hb]
    intro hv
    rw [(uabc_build_fields dd s).1] at hv
    rw [(uabc_build_fields dd s).2.2]
    exact h hv
  · rw [if_neg hb]
    apply uabc_check_inv
    intro hv
    rw [(uabc_build_fields dd s).1] at hv
    rw [(uabc_build_fields dd s).2.2]
    exact h hv

theorem vpc_step_inv (dd : DatumCtx) (s : VPCState) (op : VPCOp)
    (h : VPCInv s) : VPCInv ((vpc_step dd s op).1) := by
  cases op with
  | setCrs entries regions =>
    unfold vpc_step
    dsimp only
    split
    · exact h
    · apply uabc_inv
      have h2 := foldl_set_single_inv entries s h
      intro hv
      by_cases hreg : regions ≠ []
      · rw [if_pos hreg] at hv ⊢
        exact h2 hv
      · rw [if_neg hreg] at hv ⊢
        exact h2 hv
  | updateRegions regions =>
    apply uabc_inv
    intro hv
    exact h hv

theorem vpc_run_inv_aux (dd : DatumCtx) :
    ∀ (ops : List VPCOp) (s : VPCState), VPCInv s → VPCInv (vpc_run dd s ops) := by
  intro ops
  induction ops with
  | nil => intro s h; exact h
  | cons op ops2 ih =>
    intro s h
    exact ih _ (vpc_step_inv dd s op h)

theorem vpc_run_inv (dd : DatumCtx) (ops : List VPCOp) :
    VPCInv (vpc_run dd VPCState.init ops) :=
  vpc_run_inv_aux dd ops VPCState.init (fun h => Bool.noConfusion h)

/-- C6: on every reachable `VyperPipelineCRS` state, `to_wkt()` returns the
"no representation" value `None` (raising nothing) exactly when the CRS is
not valid; when it is valid, the built compound CRS exists and its external
serialisation is returned. -/
theorem vpc_to_wkt_spec (wktOf : CCRS → String) (s : VPCState)
    (h : VPCReachable s) :
    (s.is_valid_f = false → vpc_to_wkt wktOf s = Except.ok none) ∧
    (s.is_valid_f = true → ∃ c, s.ccrs = some c ∧
      vpc_to_wkt wktOf s = Except.ok (some (wktOf c))) := by
  constructor
  · intro h0
    unfold vpc_to_wkt
    rw [if_neg (by simp [h0])]
  · intro h1
    obtain ⟨dd, ops, rfl⟩ := h
    have hc := vpc_run_inv dd ops h1
    obtain ⟨c, hcc⟩ := Option.isSome_iff_exists.mp hc
    refine ⟨c, hcc, ?_⟩
    unfold vpc_to_wkt
    rw [if_pos h1, hcc]

/-- Witness for C6 at the freshly initialised (invalid) object. -/
theorem vpc_to_wkt_spec_witness :
    VPCReachable VPCState.init ∧
    vpc_to_wkt (fun c => c.cname) VPCState.init = Except.ok none :=
  ⟨⟨ddC4, [], rfl⟩,
    (vpc_to_wkt_spec (fun c => c.cname) VPCState.init ⟨ddC4, [], rfl⟩).1 rfl⟩

/-! ## Claim theorems for the region catalog (`set_other_paths`) -/

theorem assocGet_assocSet_self {α : Type} (l : List (String × α))
    (k : String) (v : α) : assocGet (assocSet l k v) k = some v := by
  induction l with
  | nil => simp [assocSet, assocGet, List.find?]
  | cons p rest ih =>
    by_cases hp : p.1 = k
    · simp [assocSet, hp, assocGet, List.find?]
    · simp only [assocSet, if_neg hp]
      simp only [assocGet, List.find?] at ih ⊢
      rw [show decide (p.1 = k) = false from by simpa using hp]
      exact ih

/-- C8 counterexample: merging the extended directory `P` (holding a valid
region `r1` with a complete config) into a catalog that already registers
`r1` *replaces* the previously registered polygon file and uncertainties of
`r1` and moves it to the end of the region list — the opposite of "first
registration wins, already-registered data stays unchanged" — and the merge
completes without raising. -/
theorem set_other_paths_overrides_existing_region :
    assocGet st0C8.polygon_files "r1" = some "vdatum/r1/r1.kml" ∧
    assocGet (set_other_paths fsC8 [("ext_path", "P")] st0C8).1.polygon_files
      "r1" = some "P/r1/r1.gpkg" ∧
    (set_other_paths fsC8 [("ext_path", "P")] st0C8).1.regions =
      ["r2", "r1"] ∧
    assocGet (set_other_paths fsC8 [("ext_path", "P")] st0C8).1.uncertainties
      "r1" = some
      [("tss", "0.05"), ("mhhw", "0.0"), ("mhw", "0.0"), ("mlw", "0.0"),
       ("mllw", "0.08"), ("dtl", "0.0"), ("mtl", "0.0")] ∧
    (set_other_paths fsC8 [("ext_path", "P")] st0C8).2 = false := by
  refine ⟨by decide, by decide, by decide, by decide, by decide⟩

/-- C8 (amended): on a name collision the *last* registration wins: a valid
extended region whose config carries the full set of `uncertainty_*` keys
(so the dict lookups of lines 745-751 raise no `KeyError`) overwrites the
already-registered polygon file, region info and uncertainty table for that
name, the name moves to the end of the region list (kept unique), and the
registration does not raise. -/
theorem set_other_paths_last_registration_wins
    (st : DatumDataState) (entry region polygon_file : String)
    (info tbl : List (String × String))
    (hmem : region ∈ st.regions)
    (htbl : extended_unc_table info = some tbl) :
    (register_region st entry region polygon_file info).2 = false ∧
    assocGet
      (register_region st entry region polygon_file info).1.polygon_files
      region = some polygon_file ∧
    (register_region st entry region polygon_file info).1.regions =
      st.regions.erase region ++ [region] ∧
    assocGet
      (register_region st entry region polygon_file info).1.extended_region
      region = some info ∧
    assocGet
      (register_region st entry region polygon_file info).1.uncertainties
      region = some tbl := by
  have htss : hasKey info "uncertainty_tss" = true := by
    unfold hasKey
    cases h1 : assocGet info "uncertainty_tss" with
    | some v => rfl
    | none =>
      unfold extended_unc_table at htbl
      rw [h1] at htbl
      exact Option.noConfusion htbl
  unfold register_region
  rw [if_pos htss, htbl]
  dsimp only
  rw [if_pos hmem]
  exact ⟨rfl, assocGet_assocSet_self _ _ _, rfl,
    assocGet_assocSet_self _ _ _, assocGet_assocSet_self _ _ _⟩

/-- Witness for the amended C8 theorem at the concrete colliding catalog
with its complete config. -/
theorem set_other_paths_last_registration_wins_witness :
    ("r1" ∈ st0C8.regions ∧
      extended_unc_table (fsC8.regionConfig "P/r1/r1.config") = some
        [("tss", "0.05"), ("mhhw", "0.0"), ("mhw", "0.0"), ("mlw", "0.0"),
         ("mllw", "0.08"), ("dtl", "0.0"), ("mtl", "0.0")]) ∧
    assocGet (register_region st0C8 "ext_path" "r1" "P/r1/r1.gpkg"
      (fsC8.regionConfig "P/r1/r1.config")).1.polygon_files "r1" =
      some "P/r1/r1.gpkg" :=
  ⟨⟨by decide, by decide⟩,
    (set_other_paths_last_registration_wins st0C8 "ext_path" "r1"
      "P/r1/r1.gpkg" (fsC8.regionConfig "P/r1/r1.config")
      [("tss", "0.05"), ("mhhw", "0.0"), ("mhw", "0.0"), ("mlw", "0.0"),
       ("mllw", "0.08"), ("dtl", "0.0"), ("mtl", "0.0")]
      (by decide) (by decide)).2.1⟩

/-! ## Claim theorems for `apply_sep` -/

theorem getD_map_of_lt {α β : Type} (f : α → β) (l : List α) :
    ∀ (i : Nat) (d : β) (d2 : α), i < l.length →
      (l.map f).getD i d = f (l.getD i d2) := by
  induction l with
  | nil => intro i d d2 h; simp at h
  | cons a as2 ih =>
    intro i d d2 h
    cases i with
    | zero => rfl
    | succ j =>
      simp only [List.map_cons, List.getD_cons_succ]
      exact ih j d d2 (by simp only [List.length_cons] at h; omega)

theorem maskedAssign_getD_of_mask_true :
    ∀ (as1 ns : List VFloat) (ms : List Bool) (i : Nat) (d : VFloat),
      ms.getD i false = true → i < as1.length → i < ns.length →
      (maskedAssign as1 ns ms).getD i d = ns.getD i d := by
  intro as1
  induction as1 with
  | nil => intro ns ms i d _ h _; simp at h
  | cons a as2 ih =>
    intro ns ms i d hm ha hn
    cases ns with
    | nil => simp at hn
    | cons nn ns2 =>
      cases ms with
      | nil => simp [List.getD] at hm
      | cons m ms2 =>
        cases i with
        | zero =>
          have : m = true := by simpa using hm
          simp [maskedAssign, this]
        | succ j =>
          have := ih ns2 ms2 j d (by simpa using hm)
            (by simp only [List.length_cons] at ha; omega)
            (by simp only [List.length_cons] at hn; omega)
          simpa [maskedAssign] using this

theorem maskedFill_getD_of_mask_true :
    ∀ (as1 : List VFloat) (v : VFloat) (ms : List Bool) (i : Nat) (d : VFloat),
      ms.getD i false = true → i < as1.length →
      (maskedFill as1 v ms).getD i d = v := by
  intro as1
  induction as1 with
  | nil => intro v ms i d _ h; simp at h
  | cons a as2 ih =>
    intro v ms i d hm ha
    cases ms with
    | nil => simp [List.getD] at hm
    | cons m ms2 =>
      cases i with
      | zero =>
        have : m = true := by simpa using hm
        simp [maskedFill, this]
      | succ j =>
        have := ih v ms2 j d (by simpa using hm)
          (by simp only [List.length_cons] at ha; omega)
        simpa [maskedFill] using this

theorem getD_default_irrel {α : Type} (l : List α) :
    ∀ (i : Nat) (d d2 : α), i < l.length → l.getD i d = l.getD i d2 := by
  induction l with
  | nil => intro i d d2 h; simp at h
  | cons a as2 ih =>
    intro i d d2 h
    cases i with
    | zero => rfl
    | succ j =>
      simp only [List.getD_cons_succ]
      exact ih j d d2 (by simp only [List.length_cons] at h; omega)

theorem maskedAssign_length :
    ∀ (as1 ns : List VFloat) (ms : List Bool),
      (maskedAssign as1 ns ms).length = as1.length := by
  intro as1
  induction as1 with
  | nil => intro ns ms; rfl
  | cons a as2 ih =>
    intro ns ms
    cases ns with
    | nil => rfl
    | cons nn ns2 =>
      cases ms with
      | nil => rfl
      | cons m ms2 => simp [maskedAssign, ih]

/-- C9 counterexample: a pixel whose separation is non-finite but not NaN
(`+inf`) is missed by `missing_idx = np.isnan(...)`: with "allow outside
coverage" set, its elevation is *not* passed through unchanged — it becomes
`elev - inf = -inf`. -/
theorem apply_sep_inf_sep_not_passed_through :
    (apply_sep true false false [VFloat.fin 5] [] [VFloat.inf] [VFloat.fin 0]
      VFloat.nan VFloat.nan).1 = [VFloat.neginf] ∧
    [VFloat.neginf] ≠ [VFloat.fin 5] := by
  refine ⟨by decide, by decide⟩

/-- C9 (amended): in `apply_sep`, at every pixel whose separation is *NaN*
(the value `missing_idx = np.isnan` actually tests): with "allow outside
coverage" set, the original elevation passes through unchanged and the
uncertainty becomes the CATZOC-D value `3 - 0.06 * z`, overwritten with
`3.0` where `z > 0`; without the option both layers get their nodata
values.  The whole-raster operation never fails either way. -/
theorem apply_sep_nan_policy (allow is_height has_unc : Bool)
    (elev unc sep sep_unc : List VFloat) (elev_nodata unc_nodata : VFloat)
    (i : Nat) (d : VFloat)
    (hle : elev.length = sep.length) (hlu : unc.length = sep.length)
    (hls : sep_unc.length = sep.length) (hi : i < sep.length)
    (hnan : visnan (sep.getD i VFloat.nan) = true) :
    (allow = true →
      (apply_sep allow is_height has_unc elev unc sep sep_unc
        elev_nodata unc_nodata).1.getD i d = elev.getD i d ∧
      (apply_sep allow is_height has_unc elev unc sep sep_unc
        elev_nodata unc_nodata).2.getD i d = catzoc_u (elev.getD i d)) ∧
    (allow = false →
      (apply_sep allow is_height has_unc elev unc sep sep_unc
        elev_nodata unc_nodata).1.getD i d = elev_nodata ∧
      (apply_sep allow is_height has_unc elev unc sep sep_unc
        elev_nodata unc_nodata).2.getD i d = unc_nodata) := by
  have hmask : (sep.map visnan).getD i false = true := by
    rw [getD_map_of_lt visnan sep i false VFloat.nan hi]
    exact hnan
  have hfe_len : ∀ b : Bool,
      (if b then List.zipWith (fun e s => vsub (vneg e) s) elev sep
       else List.zipWith vsub elev sep).length = sep.length := by
    intro b
    cases b <;> simp [List.length_zipWith, hle]
  have hfu_len : ∀ b : Bool,
      (if b then List.zipWith vadd unc sep_unc else sep_unc).length =
        sep.length := by
    intro b
    cases b <;> simp [List.length_zipWith, hlu, hls]
  constructor
  · rintro rfl
    unfold apply_sep
    rw [if_neg (by simp)]
    dsimp only
    have h1 : (maskedAssign
        (if is_height then List.zipWith (fun e s => vsub (vneg e) s) elev sep
         else List.zipWith vsub elev sep) elev (sep.map visnan)).getD i d =
        elev.getD i d :=
      maskedAssign_getD_of_mask_true _ _ _ i d hmask
        (by rw [hfe_len]; exact hi) (by omega)
    refine ⟨h1, ?_⟩
    rw [maskedAssign_getD_of_mask_true _ _ _ i d hmask
      (by rw [hfu_len]; exact hi)
      (by rw [List.length_map, maskedAssign_length, hfe_len]; exact hi)]
    rw [getD_map_of_lt catzoc_u _ i d VFloat.nan
      (by rw [maskedAssign_length, hfe_len]; exact hi)]
    rw [maskedAssign_getD_of_mask_true _ _ _ i VFloat.nan hmask
      (by rw [hfe_len]; exact hi) (by omega)]
    rw [getD_default_irrel elev i VFloat.nan d (by omega)]
  · rintro rfl
    unfold apply_sep
    rw [if_pos (by simp)]
    dsimp only
    exact ⟨maskedFill_getD_of_mask_true _ _ _ i d hmask
        (by rw [hfe_len]; exact hi),
      maskedFill_getD_of_mask_true _ _ _ i d hmask
        (by rw [hfu_len]; exact hi)⟩

/-- Witness for the amended C9 theorem at a one-pixel raster with NaN
separation. -/
theorem apply_sep_nan_policy_witness :
    (([VFloat.fin 5] : List VFloat).length = [VFloat.nan].length ∧
      visnan (([VFloat.nan] : List VFloat).getD 0 VFloat.nan) = true) ∧
    ((apply_sep true false false [VFloat.fin 5] [VFloat.fin 0] [VFloat.nan]
      [VFloat.fin 0] VFloat.nan VFloat.nan).1.getD 0 VFloat.nan =
      ([VFloat.fin 5] : List VFloat).getD 0 VFloat.nan ∧
    (apply_sep true false false [VFloat.fin 5] [VFloat.fin 0] [VFloat.nan]
      [VFloat.fin 0] VFloat.nan VFloat.nan).2.getD 0 VFloat.nan =
      catzoc_u (([VFloat.fin 5] : List VFloat).getD 0 VFloat.nan)) :=
  ⟨⟨by decide, by decide⟩,
    (apply_sep_nan_policy true false false [VFloat.fin 5] [VFloat.fin 0]
      [VFloat.nan] [VFloat.fin 0] VFloat.nan VFloat.nan 0 VFloat.nan
      (by decide) (by decide) (by decide) (by decide) (by decide)).1 rfl⟩

end Vyper
